import Mathlib

/-! # The food pool of `crawl-ref/source/foodpool.{h,cc}` and the hunger classifier of `food.cc`

A shallow embedding of class `foodpool`, of `food_change` and of `lessen_hunger`,
and a verification of their contract.

* `std::vector<tfood>` is a `List tfood` in the same order (`front` first,
  `back()` is the last element).
* `int` is `Int`.  Overflow of signed arithmetic is undefined behaviour in C++,
  so the embedding describes the executions in which no `int` operation
  overflows.  The one unsigned computation, `you.elapsed_time + duration` in
  `add_tempfood`, is defined modulo `2 ^ 32` and is embedded that way.
* Member functions take the object as an explicit argument and return the new
  object (together with the returned value, when there is one).
-/

/-! ## Data model (`foodpool.h`) -/

/-- The nested struct `foodpool::tfood`: one batch of temporary food. -/
structure tfood where
  amount : Int
  expires : Int
deriving DecidableEq, Repr

/-- The enum `foodpool_select`. -/
inductive foodpool_select where
  | TEMP_FOOD_PREF
  | PERM_FOOD_PREF
  | TEMP_FOOD_ONLY
  | PERM_FOOD_ONLY
deriving DecidableEq, Repr

/-- The data members of class `foodpool`. -/
structure foodpool where
  temp_food : List tfood
  perm_food : Int
deriving DecidableEq, Repr

/-! ## Library routines used by the source -/

/-- Conversion of the `unsigned` value `u mod 2 ^ 32` to `int`. -/
def unsigned_to_int (u : Int) : Int :=
  if u % 2 ^ 32 < 2 ^ 31 then u % 2 ^ 32 else u % 2 ^ 32 - 2 ^ 32

/-- The position returned by `std::find_if`: the index of the first element
satisfying `pred`, or the length of the vector (`end()`) when there is none. -/
def find_if (pred : tfood → Bool) : List tfood → Nat
  | [] => 0
  | t :: ts => if pred t then 0 else find_if pred ts + 1

/-- The effect of `std::vector::insert(pos, x)`: `x` is placed before the
element at index `pos`. -/
def vector_insert (v : List tfood) (pos : Nat) (x : tfood) : List tfood :=
  v.take pos ++ x :: v.drop pos

namespace foodpool

/-! ## Queries (`foodpool.cc`, lines 12-30) -/

/-- The method `foodpool::perm_food_qty`. -/
def perm_food_qty (self : foodpool) : Int :=
  self.perm_food

/-- The method `foodpool::temp_food_qty`: the loop `for (auto t : temp_food) qty += t.amount`. -/
def temp_food_qty (self : foodpool) : Int :=
  self.temp_food.foldl (fun qty t => qty + t.amount) 0

/-- The method `foodpool::total_food_qty`. -/
def total_food_qty (self : foodpool) : Int :=
  self.perm_food_qty + self.temp_food_qty

/-! ## Deposits (`foodpool.cc`, lines 32-45) -/

/-- The method `foodpool::add_permfood`. -/
def add_permfood (self : foodpool) (amount : Int) : foodpool :=
  { self with perm_food := self.perm_food + amount }

/-- The method `foodpool::add_tempfood`.  The global `you.elapsed_time` read by
the source is the argument `elapsed_time`; `duration` is `unsigned`. -/
def add_tempfood (self : foodpool) (elapsed_time : Int) (amount : Int) (duration : Nat) :
    foodpool :=
  let new_tf : tfood := { amount := amount, expires := unsigned_to_int (elapsed_time + duration) }
  { self with
    temp_food :=
      vector_insert self.temp_food
        (find_if (fun tf => decide (new_tf.expires > tf.expires)) self.temp_food) new_tf }

/-! ## Withdrawals (`foodpool.cc`, lines 47-89) -/

/-- One execution of the body of the `while` loop of `del_tempfood`, on the
local `amount` and the vector `temp_food`, which the loop guard makes non-empty. -/
def del_tempfood_body (amount : Int) (temp_food : List tfood) (h : temp_food ≠ []) :
    Int × List tfood :=
  let back := temp_food.getLast h
  let d := min amount back.amount
  let back1 : tfood := { back with amount := back.amount - d }
  let amount1 := amount - d
  if back1.amount = 0 then (amount1, temp_food.dropLast)
  else (amount1, temp_food.dropLast ++ [back1])

/-- The `while` loop of `del_tempfood`:
`while (amount > 0 && !temp_food.empty()) { ... }`, returning the final values
of `amount` and `temp_food`. -/
def del_tempfood_loop (amount : Int) (temp_food : List tfood) : Int × List tfood :=
  if h : 0 < amount ∧ temp_food ≠ [] then
    del_tempfood_loop (del_tempfood_body amount temp_food h.2).1
      (del_tempfood_body amount temp_food h.2).2
  else (amount, temp_food)
termination_by (if 0 < amount then temp_food.length + 1 else 0)
decreasing_by
  have hlen : 0 < temp_food.length := List.length_pos.mpr h.2
  simp only [h.1, if_true]
  unfold del_tempfood_body
  by_cases hz : (temp_food.getLast h.2).amount - min amount (temp_food.getLast h.2).amount = 0
  · simp only [hz, if_true]
    split
    · simp only [List.length_dropLast]; omega
    · omega
  · simp only [hz, if_false]
    have hd : min amount (temp_food.getLast h.2).amount = amount := by
      rcases le_total amount (temp_food.getLast h.2).amount with hle | hle
      · exact min_eq_left hle
      · exfalso; apply hz; rw [min_eq_right hle]; omega
    simp [hd]

/-- The private method `foodpool::del_tempfood`. -/
def del_tempfood (self : foodpool) (amount : Int) : Int × foodpool :=
  ((del_tempfood_loop amount self.temp_food).1,
    { self with temp_food := (del_tempfood_loop amount self.temp_food).2 })

/-- The private method `foodpool::del_permfood`. -/
def del_permfood (self : foodpool) (amount : Int) : Int × foodpool :=
  let d := max 0 (min amount self.perm_food)
  (amount - d, { self with perm_food := self.perm_food - d })

/-- The method `foodpool::del_food`. -/
def del_food (self : foodpool) (amount : Int) (pool : foodpool_select) : Int × foodpool :=
  let s1 : Int × foodpool :=
    if pool = .PERM_FOOD_ONLY ∨ pool = .PERM_FOOD_PREF then self.del_permfood amount
    else (amount, self)
  if pool = .PERM_FOOD_ONLY ∨ s1.1 ≤ 0 then s1
  else
    let s2 : Int × foodpool :=
      if pool = .TEMP_FOOD_ONLY ∨ pool = .TEMP_FOOD_PREF then s1.2.del_tempfood s1.1
      else s1
    if pool = .TEMP_FOOD_ONLY ∨ s2.1 ≤ 0 then s2
    else
      let s3 := s2.2.del_permfood s2.1
      s3.2.del_tempfood s3.1

end foodpool

/-! ## Sequences of calls and the invariants of the data model -/

/-- A call of one of the three mutating public methods, with its arguments
(and, for `add_tempfood`, the value of `you.elapsed_time` at the call). -/
inductive foodpool_call where
  | add_permfood (amount : Int)
  | add_tempfood (elapsed_time : Int) (amount : Int) (duration : Nat)
  | del_food (amount : Int) (pool : foodpool_select)
deriving DecidableEq, Repr

namespace foodpool

/-- The pool with no batch and no permanent food. -/
def empty : foodpool :=
  { temp_food := [], perm_food := 0 }

/-- The state of the pool after one call (a returned leftover is dropped). -/
def call (self : foodpool) : foodpool_call → foodpool
  | .add_permfood amount => self.add_permfood amount
  | .add_tempfood elapsed_time amount duration => self.add_tempfood elapsed_time amount duration
  | .del_food amount pool => (self.del_food amount pool).2

/-- The state of the pool after a sequence of calls, made in list order. -/
def calls (self : foodpool) (cs : List foodpool_call) : foodpool :=
  cs.foldl call self

/-- Invariant A on a batch sequence: `expires` never increases from front to back. -/
def sorted_desc (v : List tfood) : Prop :=
  v.Pairwise (fun a b => a.expires ≥ b.expires)

/-- Invariant B on a batch sequence: every batch has a positive amount. -/
def all_positive (v : List tfood) : Prop :=
  ∀ t ∈ v, 0 < t.amount

/-- The weaker form of Invariant B: no batch has a negative amount. -/
def all_nonneg (v : List tfood) : Prop :=
  ∀ t ∈ v, 0 ≤ t.amount

instance (v : List tfood) : Decidable (sorted_desc v) := by
  unfold sorted_desc; infer_instance

instance (v : List tfood) : Decidable (all_positive v) := by
  unfold all_positive; infer_instance

instance (v : List tfood) : Decidable (all_nonneg v) := by
  unfold all_nonneg; infer_instance

/-- The sum of the amounts of a batch sequence. -/
def batch_sum (v : List tfood) : Int :=
  (v.map tfood.amount).sum

/-- The quantity a withdrawal can reach under a policy. -/
def reachable_qty (self : foodpool) : foodpool_select → Int
  | .PERM_FOOD_ONLY => self.perm_food_qty
  | .TEMP_FOOD_ONLY => self.temp_food_qty
  | .TEMP_FOOD_PREF => self.total_food_qty
  | .PERM_FOOD_PREF => self.total_food_qty

end foodpool

/-- The arguments the data model allows: a temporary deposit has a positive
amount, a permanent deposit and a withdrawal a non-negative one. -/
def foodpool_call.in_contract : foodpool_call → Bool
  | .add_permfood amount => decide (0 ≤ amount)
  | .add_tempfood _ amount _ => decide (0 < amount)
  | .del_food amount _ => decide (0 ≤ amount)

/-- The only restriction is on permanent deposits, whose amount is non-negative. -/
def foodpool_call.perm_deposit_nonneg : foodpool_call → Bool
  | .add_permfood amount => decide (0 ≤ amount)
  | .add_tempfood _ _ _ => true
  | .del_food _ _ => true

/-! ## Shapes of results and reference behaviours -/

namespace foodpool

/-- The batch sequence `w` is what draining from the back leaves of `v`: it is
empty, or it is a front part of `v` followed by the next batch of `v` with its
`expires` and an amount between 1 and the amount it had. -/
def drained_from (v w : List tfood) : Prop :=
  w = [] ∨
    ∃ (l : List tfood) (b : tfood) (r : List tfood) (m : Int),
      v = l ++ b :: r ∧ w = l ++ [{ b with amount := m }] ∧ 1 ≤ m ∧ m ≤ b.amount

/-- The temporary-preferred policy in the words of the specification: run a
temporary-only withdrawal, then attempt what it left unmet against the
permanent pool. -/
def temp_only_then_perm_only (self : foodpool) (amount : Int) : Int × foodpool :=
  let first := self.del_food amount .TEMP_FOOD_ONLY
  first.2.del_food first.1 .PERM_FOOD_ONLY

end foodpool

/-- The arguments of one call of `add_tempfood`, with the value of
`you.elapsed_time` at the call. -/
structure tempfood_deposit where
  elapsed_time : Int
  amount : Int
  duration : Nat
deriving DecidableEq, Repr

/-- The batch that `add_tempfood` builds from its arguments (`new_tf`). -/
def tempfood_deposit.batch (dep : tempfood_deposit) : tfood :=
  { amount := dep.amount, expires := unsigned_to_int (dep.elapsed_time + dep.duration) }

/-- The pool after a sequence of `add_tempfood` calls, made in list order. -/
def foodpool.add_tempfoods (self : foodpool) (deps : List tempfood_deposit) : foodpool :=
  deps.foldl (fun p dep => p.add_tempfood dep.elapsed_time dep.amount dep.duration) self

/-! ## The hunger-state classifier (`food.cc`) -/

/-- The values of the `HUNGER_*` macros, which are defined outside `food.cc`;
they are a parameter of everything below. -/
structure hunger_constants where
  HUNGER_FAINTING : Int
  HUNGER_STARVING : Int
  HUNGER_NEAR_STARVING : Int
  HUNGER_VERY_HUNGRY : Int
  HUNGER_HUNGRY : Int
  HUNGER_SATIATED : Int
  HUNGER_FULL : Int
  HUNGER_VERY_FULL : Int
  HUNGER_ENGORGED : Int
  HUNGER_DEFAULT : Int
  HUNGER_MAXIMUM : Int
deriving DecidableEq, Repr

/-- Modelled from the spec: the enumerator `HS_FAINTING` of `hunger_state_t`,
an enum declared outside `food.cc`.  Its levels are the ordered set fainting,
starving, ..., satiated, full, ..., engorged; the table
`hunger_threshold[HS_ENGORGED + 1]` has nine entries that "must match the order
of hunger_state_t enums", so the levels are numbered 0 to 8 in that order. -/
abbrev HS_FAINTING : Nat := 0

/-- Modelled from the spec: the enumerator `HS_SATIATED` of `hunger_state_t`,
the level of the table entry `HUNGER_SATIATED`. -/
abbrev HS_SATIATED : Nat := 5

/-- Modelled from the spec: the enumerator `HS_ENGORGED` of `hunger_state_t`,
the last level. -/
abbrev HS_ENGORGED : Nat := 8

/-- The table `hunger_threshold` (`food.cc`, lines 91-96).  Only the indices
0 to `HS_ENGORGED` are ever read. -/
def hunger_threshold (k : hunger_constants) : Nat → Int
  | 0 => k.HUNGER_FAINTING
  | 1 => k.HUNGER_STARVING
  | 2 => k.HUNGER_NEAR_STARVING
  | 3 => k.HUNGER_VERY_HUNGRY
  | 4 => k.HUNGER_HUNGRY
  | 5 => k.HUNGER_SATIATED
  | 6 => k.HUNGER_FULL
  | 7 => k.HUNGER_VERY_FULL
  | 8 => k.HUNGER_ENGORGED
  | _ => 0

/-- The part of the global `you` that the classifier reads and writes:
`you.hunger`, `you.hunger_state`, and the three facts about the player that
the hunger bounds test (the result of `you_foodless()`, whether
`you.species == SP_GHOUL`, whether `you.undead_state() == US_ALIVE`). -/
structure player where
  hunger : Int
  hunger_state : Nat
  foodless : Bool
  is_ghoul : Bool
  is_alive : Bool
deriving DecidableEq, Repr

/-- The function `you_max_hunger` (`food.cc`, lines 1012-1022). -/
def you_max_hunger (k : hunger_constants) (you : player) : Int :=
  if you.foodless then k.HUNGER_DEFAULT
  else if you.is_ghoul then hunger_threshold k HS_SATIATED
  else hunger_threshold k HS_ENGORGED

/-- The function `you_min_hunger` (`food.cc`, lines 1024-1035); the division
of `int`s truncates. -/
def you_min_hunger (k : hunger_constants) (you : player) : Int :=
  if you.foodless then k.HUNGER_DEFAULT
  else if !you.is_alive then Int.tdiv (k.HUNGER_FAINTING + k.HUNGER_STARVING) 2
  else 0

/-- The loop of `food_change` that finds the new hunger state:
`while (newstate < HS_ENGORGED && you.hunger > hunger_threshold[newstate])
newstate = newstate + 1`, returning the final `newstate`. -/
def food_change_loop (k : hunger_constants) (hunger : Int) (newstate : Nat) : Nat :=
  if newstate < HS_ENGORGED ∧ hunger > hunger_threshold k newstate then
    food_change_loop k hunger (newstate + 1)
  else newstate
termination_by HS_ENGORGED - newstate
decreasing_by
  rename_i h
  omega

/-- The function `food_change` (`food.cc`, lines 325-438): the returned
`state_changed` and the new `you`.  The messages, interrupts and duration
changes made when the state changes act on parts of the game outside `player`
and are left out; `initial` only selects messages. -/
def food_change (k : hunger_constants) (you : player) (_initial : Bool) : Bool × player :=
  let you1 : player := { you with hunger := max (you_min_hunger k you) you.hunger }
  let you2 : player := { you1 with hunger := min (you_max_hunger k you1) you1.hunger }
  let newstate := food_change_loop k you2.hunger HS_FAINTING
  if newstate ≠ you2.hunger_state then
    (true, { you2 with hunger_state := newstate })
  else (false, you2)

/-- Sample values of the `HUNGER_*` macros, used only to instantiate the
general statements. -/
def sample_constants : hunger_constants :=
  { HUNGER_FAINTING := 400, HUNGER_STARVING := 900, HUNGER_NEAR_STARVING := 1433,
    HUNGER_VERY_HUNGRY := 1966, HUNGER_HUNGRY := 2500, HUNGER_SATIATED := 6900,
    HUNGER_FULL := 8900, HUNGER_VERY_FULL := 10900, HUNGER_ENGORGED := 39900,
    HUNGER_DEFAULT := 5900, HUNGER_MAXIMUM := 11900 }

/-- The function `lessen_hunger` (`food.cc`, lines 107-127): the new `you`,
or `none` when `ASSERT_RANGE(max_hunger_state, 0, HS_ENGORGED + 1)` fails.
The message printed at the end is left out; `suppress_msg` only selects it. -/
def lessen_hunger (k : hunger_constants) (you : player) (satiated_amount : Int)
    (_suppress_msg : Bool) (max : Int) : Option player :=
  if you.foodless then some you
  else
    let you1 : player := { you with hunger := you.hunger + satiated_amount }
    let max_hunger_state : Int := if max = -1 then (HS_ENGORGED : Int) else max
    if 0 ≤ max_hunger_state ∧ max_hunger_state < (HS_ENGORGED : Int) + 1 then
      let max_hunger := min k.HUNGER_MAXIMUM (hunger_threshold k max_hunger_state.toNat)
      let you2 : player :=
        if you1.hunger > max_hunger then { you1 with hunger := max_hunger } else you1
      some (food_change k you2 false).2
    else none

/-- The loop of `del_tempfood` run for at most `fuel` iterations: the final
values of `amount` and `temp_food` when the guard becomes false within that
many executions of the body, `none` when it is still true after them. -/
def foodpool.del_tempfood_fuel : Nat → Int → List tfood → Option (Int × List tfood)
  | 0, amount, temp_food =>
    if 0 < amount ∧ temp_food ≠ [] then none else some (amount, temp_food)
  | fuel + 1, amount, temp_food =>
    if h : 0 < amount ∧ temp_food ≠ [] then
      foodpool.del_tempfood_fuel fuel (foodpool.del_tempfood_body amount temp_food h.2).1
        (foodpool.del_tempfood_body amount temp_food h.2).2
    else some (amount, temp_food)

/-! ## Facts about the loop of `del_tempfood` -/

namespace foodpool

theorem foldl_amount (v : List tfood) (init : Int) :
    v.foldl (fun qty t => qty + t.amount) init = init + batch_sum v := by
  induction v generalizing init with
  | nil => simp [batch_sum]
  | cons t ts ih =>
    simp only [List.foldl_cons, ih, batch_sum, List.map_cons, List.sum_cons]
    omega

theorem temp_food_qty_eq (self : foodpool) : self.temp_food_qty = batch_sum self.temp_food := by
  simp [temp_food_qty, foldl_amount]

theorem batch_sum_append (v w : List tfood) : batch_sum (v ++ w) = batch_sum v + batch_sum w := by
  simp [batch_sum]

theorem batch_sum_split (v : List tfood) (h : v ≠ []) :
    batch_sum v = batch_sum v.dropLast + (v.getLast h).amount := by
  conv_lhs => rw [← List.dropLast_append_getLast h]
  simp [batch_sum]

theorem mem_dropLast_mem {t : tfood} {v : List tfood} (h : t ∈ v.dropLast) : t ∈ v :=
  (List.dropLast_sublist v).subset h

theorem del_tempfood_loop_stop (amount : Int) (v : List tfood) (h : ¬ (0 < amount ∧ v ≠ [])) :
    del_tempfood_loop amount v = (amount, v) := by
  rw [del_tempfood_loop, dif_neg h]

theorem del_tempfood_loop_step (amount : Int) (v : List tfood) (h : 0 < amount ∧ v ≠ []) :
    del_tempfood_loop amount v =
      del_tempfood_loop (del_tempfood_body amount v h.2).1 (del_tempfood_body amount v h.2).2 := by
  rw [del_tempfood_loop, dif_pos h]

theorem del_tempfood_loop_nonpos (amount : Int) (v : List tfood) (h : amount ≤ 0) :
    del_tempfood_loop amount v = (amount, v) :=
  del_tempfood_loop_stop amount v (fun hc => absurd hc.1 (not_lt.mpr h))

theorem del_tempfood_loop_nil (amount : Int) : del_tempfood_loop amount [] = (amount, []) :=
  del_tempfood_loop_stop amount [] (fun hc => hc.2 rfl)

/-- Whatever the loop body preserves holds of the final values of the loop. -/
theorem del_tempfood_loop_invariant (I : Int → List tfood → Prop)
    (hstep : ∀ (a : Int) (v : List tfood) (h : v ≠ []), 0 < a → I a v →
      I (del_tempfood_body a v h).1 (del_tempfood_body a v h).2)
    (amount : Int) (v : List tfood) (h0 : I amount v) :
    I (del_tempfood_loop amount v).1 (del_tempfood_loop amount v).2 := by
  induction amount, v using del_tempfood_loop.induct with
  | case1 a v h ih =>
    rw [del_tempfood_loop_step a v h]
    exact ih (hstep a v h.2 h.1 h0)
  | case2 a v h =>
    rw [del_tempfood_loop_stop a v h]
    exact h0

/-- On exit the guard of the loop is false. -/
theorem del_tempfood_loop_exit (amount : Int) (v : List tfood) :
    (del_tempfood_loop amount v).1 ≤ 0 ∨ (del_tempfood_loop amount v).2 = [] := by
  induction amount, v using del_tempfood_loop.induct with
  | case1 a v h ih =>
    rw [del_tempfood_loop_step a v h]
    exact ih
  | case2 a v h =>
    rw [del_tempfood_loop_stop a v h]
    by_cases ha : 0 < a
    · right
      by_contra hv
      exact h ⟨ha, hv⟩
    · left
      exact not_lt.mp ha

/-- The two possible results of the loop body, with the facts that select them. -/
theorem del_tempfood_body_cases (a : Int) (v : List tfood) (h : v ≠ []) :
    ((v.getLast h).amount ≤ a ∧
        del_tempfood_body a v h = (a - (v.getLast h).amount, v.dropLast)) ∨
      (a < (v.getLast h).amount ∧
        del_tempfood_body a v h =
          (0, v.dropLast ++ [{ v.getLast h with amount := (v.getLast h).amount - a }])) := by
  unfold del_tempfood_body
  rcases le_or_lt (v.getLast h).amount a with hle | hlt
  · left
    refine ⟨hle, ?_⟩
    simp [min_eq_right hle]
  · right
    refine ⟨hlt, ?_⟩
    have hne : ¬ ((v.getLast h).amount - a = 0) := by omega
    simp [min_eq_left hlt.le, hne]

end foodpool

/-! ## Preservation of the invariants by the private helpers -/

namespace foodpool

theorem sorted_desc_dropLast {v : List tfood} (hs : sorted_desc v) : sorted_desc v.dropLast :=
  List.Pairwise.sublist (List.dropLast_sublist v) hs

theorem sorted_desc_set_back {v : List tfood} (h : v ≠ []) (hs : sorted_desc v) (n : Int) :
    sorted_desc (v.dropLast ++ [{ v.getLast h with amount := n }]) := by
  have hv : sorted_desc (v.dropLast ++ [v.getLast h]) := by
    rw [List.dropLast_append_getLast h]; exact hs
  unfold sorted_desc at hv ⊢
  rw [List.pairwise_append] at hv ⊢
  refine ⟨hv.1, by simp, ?_⟩
  intro a ha b hb
  rw [List.mem_singleton] at hb
  subst hb
  exact hv.2.2 a ha (v.getLast h) (List.mem_singleton.mpr rfl)

theorem del_tempfood_loop_sorted (amount : Int) (v : List tfood) (hs : sorted_desc v) :
    sorted_desc (del_tempfood_loop amount v).2 := by
  refine del_tempfood_loop_invariant (fun _ w => sorted_desc w) ?_ amount v hs
  intro a w h _ hw
  rcases del_tempfood_body_cases a w h with ⟨_, he⟩ | ⟨_, he⟩
  · rw [he]; exact sorted_desc_dropLast hw
  · rw [he]; exact sorted_desc_set_back h hw _

theorem del_tempfood_loop_positive (amount : Int) (v : List tfood) (hp : all_positive v) :
    all_positive (del_tempfood_loop amount v).2 := by
  refine del_tempfood_loop_invariant (fun _ w => all_positive w) ?_ amount v hp
  intro a w h _ hw
  rcases del_tempfood_body_cases a w h with ⟨_, he⟩ | ⟨hlt, he⟩
  · rw [he]
    intro t ht
    exact hw t (mem_dropLast_mem ht)
  · rw [he]
    intro t ht
    rcases List.mem_append.mp ht with ht | ht
    · exact hw t (mem_dropLast_mem ht)
    · rw [List.mem_singleton] at ht
      subst ht
      show 0 < (w.getLast h).amount - a
      omega

theorem del_tempfood_loop_nonneg (amount : Int) (v : List tfood) (ha : 0 ≤ amount)
    (hp : all_nonneg v) :
    0 ≤ (del_tempfood_loop amount v).1 ∧ all_nonneg (del_tempfood_loop amount v).2 := by
  refine del_tempfood_loop_invariant (fun a w => 0 ≤ a ∧ all_nonneg w) ?_ amount v ⟨ha, hp⟩
  intro a w h _ hw
  rcases del_tempfood_body_cases a w h with ⟨hle, he⟩ | ⟨hlt, he⟩
  · rw [he]
    refine ⟨by show 0 ≤ a - (w.getLast h).amount; omega, ?_⟩
    intro t ht
    exact hw.2 t (mem_dropLast_mem ht)
  · rw [he]
    refine ⟨le_refl 0, ?_⟩
    intro t ht
    rcases List.mem_append.mp ht with ht | ht
    · exact hw.2 t (mem_dropLast_mem ht)
    · rw [List.mem_singleton] at ht
      subst ht
      show 0 ≤ (w.getLast h).amount - a
      omega

/-- What the loop takes off `amount` is what it takes off the batches. -/
theorem del_tempfood_loop_conserve (amount : Int) (v : List tfood) :
    amount - (del_tempfood_loop amount v).1 =
      batch_sum v - batch_sum (del_tempfood_loop amount v).2 := by
  refine del_tempfood_loop_invariant
    (fun a w => amount - a = batch_sum v - batch_sum w) ?_ amount v (by simp)
  intro a w h _ hw
  have hsplit := batch_sum_split w h
  rcases del_tempfood_body_cases a w h with ⟨_, he⟩ | ⟨_, he⟩
  · rw [he]
    show amount - (a - (w.getLast h).amount) = batch_sum v - batch_sum w.dropLast
    omega
  · rw [he]
    show amount - 0 = batch_sum v - batch_sum (w.dropLast ++ [_])
    rw [batch_sum_append]
    simp only [batch_sum, List.map_cons, List.map_nil, List.sum_cons, List.sum_nil] at hsplit hw ⊢
    omega

theorem batch_sum_nonneg {v : List tfood} (hp : all_nonneg v) : 0 ≤ batch_sum v := by
  induction v with
  | nil => simp [batch_sum]
  | cons t ts ih =>
    have h1 : 0 ≤ t.amount := hp t (List.mem_cons_self t ts)
    have h2 : 0 ≤ batch_sum ts := ih (fun x hx => hp x (List.mem_cons_of_mem t hx))
    simp only [batch_sum, List.map_cons, List.sum_cons] at h2 ⊢
    omega

theorem all_positive_nonneg {v : List tfood} (hp : all_positive v) : all_nonneg v :=
  fun t ht => le_of_lt (hp t ht)

/-- The result of the loop on batches without negative amounts: the leftover
and the remaining quantity. -/
theorem del_tempfood_loop_result (amount : Int) (v : List tfood) (ha : 0 ≤ amount)
    (hp : all_nonneg v) :
    (del_tempfood_loop amount v).1 = amount - min amount (batch_sum v) ∧
      batch_sum (del_tempfood_loop amount v).2 = batch_sum v - min amount (batch_sum v) ∧
      (0 < (del_tempfood_loop amount v).1 → (del_tempfood_loop amount v).2 = []) := by
  have hc := del_tempfood_loop_conserve amount v
  have hn := del_tempfood_loop_nonneg amount v ha hp
  have hq := batch_sum_nonneg hn.2
  have hx := del_tempfood_loop_exit amount v
  have h3 : 0 < (del_tempfood_loop amount v).1 → (del_tempfood_loop amount v).2 = [] := by
    intro hpos
    rcases hx with hx | hx
    · omega
    · exact hx
  refine ⟨?_, ?_, h3⟩
  · rcases hx with hx | hx
    · have h0 : (del_tempfood_loop amount v).1 = 0 := le_antisymm hx hn.1
      rw [h0] at hc ⊢
      rw [min_eq_left (by omega)]
      omega
    · rw [hx] at hc
      simp only [batch_sum, List.map_nil, List.sum_nil] at hc hq ⊢
      rw [min_eq_right (by omega)]
      omega
  · rcases hx with hx | hx
    · have h0 : (del_tempfood_loop amount v).1 = 0 := le_antisymm hx hn.1
      rw [h0] at hc
      rw [min_eq_left (by omega)]
      omega
    · rw [hx] at hc ⊢
      simp only [batch_sum, List.map_nil, List.sum_nil] at hc hq ⊢
      rw [min_eq_right (by omega)]
      omega

end foodpool

/-! ## `del_food`, policy by policy -/

namespace foodpool

theorem del_tempfood_nonpos (self : foodpool) (amount : Int) (h : amount ≤ 0) :
    self.del_tempfood amount = (amount, self) := by
  simp [del_tempfood, del_tempfood_loop_nonpos amount self.temp_food h]

theorem del_food_perm_only (self : foodpool) (amount : Int) :
    self.del_food amount .PERM_FOOD_ONLY = self.del_permfood amount := by
  simp [del_food]

theorem del_food_temp_only (self : foodpool) (amount : Int) :
    self.del_food amount .TEMP_FOOD_ONLY = self.del_tempfood amount := by
  by_cases h : amount ≤ 0
  · simp [del_food, h, del_tempfood_nonpos self amount h]
  · simp [del_food, h]

theorem del_food_temp_pref (self : foodpool) (amount : Int) :
    self.del_food amount .TEMP_FOOD_PREF =
      if (self.del_tempfood amount).1 ≤ 0 then self.del_tempfood amount
      else
        (((self.del_tempfood amount).2.del_permfood (self.del_tempfood amount).1).2.del_tempfood
          ((self.del_tempfood amount).2.del_permfood (self.del_tempfood amount).1).1) := by
  by_cases h : amount ≤ 0
  · simp [del_food, h, del_tempfood_nonpos self amount h]
  · simp [del_food, h]

theorem del_food_perm_pref (self : foodpool) (amount : Int) :
    self.del_food amount .PERM_FOOD_PREF =
      if (self.del_permfood amount).1 ≤ 0 then self.del_permfood amount
      else
        (((self.del_permfood amount).2.del_permfood (self.del_permfood amount).1).2.del_tempfood
          ((self.del_permfood amount).2.del_permfood (self.del_permfood amount).1).1) := by
  by_cases h : (self.del_permfood amount).1 ≤ 0
  · simp [del_food, h]
  · simp [del_food, h]

/-- A property of the batch sequence that the drain loop preserves is preserved
by `del_food`, whatever the policy. -/
theorem del_food_temp_invariant (P : List tfood → Prop)
    (hP : ∀ (a : Int) (v : List tfood), P v → P (del_tempfood_loop a v).2)
    (self : foodpool) (amount : Int) (pool : foodpool_select) (h0 : P self.temp_food) :
    P (self.del_food amount pool).2.temp_food := by
  cases pool
  · rw [del_food_temp_pref]
    split
    · exact hP _ _ h0
    · exact hP _ _ (hP _ _ h0)
  · rw [del_food_perm_pref]
    split
    · exact h0
    · exact hP _ _ h0
  · rw [del_food_temp_only]
    exact hP _ _ h0
  · rw [del_food_perm_only]
    exact h0

theorem del_permfood_perm_nonneg (self : foodpool) (amount : Int) (h : 0 ≤ self.perm_food) :
    0 ≤ (self.del_permfood amount).2.perm_food := by
  show 0 ≤ self.perm_food - max 0 (min amount self.perm_food)
  rcases le_total amount self.perm_food with h1 | h1
  · rw [min_eq_left h1]
    rcases le_total 0 amount with h2 | h2
    · rw [max_eq_right h2]; omega
    · rw [max_eq_left h2]; omega
  · rw [min_eq_right h1, max_eq_right h]; omega

theorem del_food_perm_nonneg (self : foodpool) (amount : Int) (pool : foodpool_select)
    (h : 0 ≤ self.perm_food) : 0 ≤ (self.del_food amount pool).2.perm_food := by
  cases pool
  · rw [del_food_temp_pref]
    split
    · exact h
    · exact del_permfood_perm_nonneg _ _ h
  · rw [del_food_perm_pref]
    split
    · exact del_permfood_perm_nonneg _ _ h
    · exact del_permfood_perm_nonneg _ _ (del_permfood_perm_nonneg _ _ h)
  · rw [del_food_temp_only]
    exact h
  · rw [del_food_perm_only]
    exact del_permfood_perm_nonneg _ _ h

/-! ## `add_tempfood` keeps the batches ordered -/

theorem vector_insert_zero (v : List tfood) (x : tfood) : vector_insert v 0 x = x :: v := by
  simp [vector_insert]

theorem vector_insert_succ (t : tfood) (ts : List tfood) (i : Nat) (x : tfood) :
    vector_insert (t :: ts) (i + 1) x = t :: vector_insert ts i x := by
  simp [vector_insert]

theorem mem_vector_insert {y x : tfood} {v : List tfood} {i : Nat}
    (h : y ∈ vector_insert v i x) : y = x ∨ y ∈ v := by
  unfold vector_insert at h
  rcases List.mem_append.mp h with h | h
  · exact Or.inr (List.mem_of_mem_take h)
  · rcases List.mem_cons.mp h with h | h
    · exact Or.inl h
    · exact Or.inr (List.mem_of_mem_drop h)

theorem insert_sorted (v : List tfood) (x : tfood) (hs : sorted_desc v) :
    sorted_desc (vector_insert v (find_if (fun tf => decide (x.expires > tf.expires)) v) x) := by
  induction v with
  | nil => simp [find_if, vector_insert, sorted_desc]
  | cons t ts ih =>
    have hs2 := List.pairwise_cons.mp hs
    by_cases hp : x.expires > t.expires
    · simp only [find_if, hp, decide_True, if_true, vector_insert_zero]
      refine List.pairwise_cons.mpr ⟨?_, hs⟩
      intro b hb
      rcases List.mem_cons.mp hb with hb | hb
      · subst hb; exact le_of_lt hp
      · have := hs2.1 b hb
        omega
    · simp only [find_if, hp, decide_False, Bool.false_eq_true, if_false, vector_insert_succ]
      refine List.pairwise_cons.mpr ⟨?_, ih hs2.2⟩
      intro b hb
      rcases mem_vector_insert hb with hb | hb
      · subst hb; omega
      · exact hs2.1 b hb

end foodpool

/-! ## Invariants along sequences of calls -/

namespace foodpool

theorem call_sorted (self : foodpool) (c : foodpool_call) (hs : sorted_desc self.temp_food) :
    sorted_desc (self.call c).temp_food := by
  cases c with
  | add_permfood amount => exact hs
  | add_tempfood elapsed_time amount duration => exact insert_sorted self.temp_food _ hs
  | del_food amount pool =>
    exact del_food_temp_invariant sorted_desc
      (fun a v hv => del_tempfood_loop_sorted a v hv) self amount pool hs

theorem calls_sorted (cs : List foodpool_call) (self : foodpool)
    (hs : sorted_desc self.temp_food) : sorted_desc (self.calls cs).temp_food := by
  induction cs generalizing self with
  | nil => exact hs
  | cons c cs ih => exact ih (self.call c) (call_sorted self c hs)

theorem del_food_positive (self : foodpool) (amount : Int) (pool : foodpool_select)
    (hp : all_positive self.temp_food) : all_positive (self.del_food amount pool).2.temp_food :=
  del_food_temp_invariant all_positive
    (fun a v hv => del_tempfood_loop_positive a v hv) self amount pool hp

theorem call_positive (self : foodpool) (c : foodpool_call) (hc : c.in_contract = true)
    (hp : all_positive self.temp_food) : all_positive (self.call c).temp_food := by
  cases c with
  | add_permfood amount => exact hp
  | add_tempfood elapsed_time amount duration =>
    intro t ht
    rcases mem_vector_insert ht with ht | ht
    · subst ht
      simpa [foodpool_call.in_contract] using hc
    · exact hp t ht
  | del_food amount pool => exact del_food_positive self amount pool hp

theorem calls_positive (cs : List foodpool_call) (self : foodpool)
    (hcs : ∀ c ∈ cs, c.in_contract = true) (hp : all_positive self.temp_food) :
    all_positive (self.calls cs).temp_food := by
  induction cs generalizing self with
  | nil => exact hp
  | cons c cs ih =>
    exact ih (self.call c) (fun x hx => hcs x (List.mem_cons_of_mem c hx))
      (call_positive self c (hcs c (List.mem_cons_self c cs)) hp)

theorem call_perm_nonneg (self : foodpool) (c : foodpool_call)
    (hc : c.perm_deposit_nonneg = true) (h : 0 ≤ self.perm_food) :
    0 ≤ (self.call c).perm_food := by
  cases c with
  | add_permfood amount =>
    have ha : 0 ≤ amount := by simpa [foodpool_call.perm_deposit_nonneg] using hc
    show 0 ≤ self.perm_food + amount
    omega
  | add_tempfood elapsed_time amount duration => exact h
  | del_food amount pool => exact del_food_perm_nonneg self amount pool h

theorem calls_perm_nonneg (cs : List foodpool_call) (self : foodpool)
    (hcs : ∀ c ∈ cs, c.perm_deposit_nonneg = true) (h : 0 ≤ self.perm_food) :
    0 ≤ (self.calls cs).perm_food := by
  induction cs generalizing self with
  | nil => exact h
  | cons c cs ih =>
    exact ih (self.call c) (fun x hx => hcs x (List.mem_cons_of_mem c hx))
      (call_perm_nonneg self c (hcs c (List.mem_cons_self c cs)) h)

end foodpool

/-! ## C1-C3: the invariants of the data model -/

/-- C1. Sort invariant: when `temp_food` is sorted by `expires` in descending
(non-increasing) order, it is still sorted after one `add_permfood`, one
`add_tempfood` (whatever the amount, the duration and the time of the call) and
one `del_food` (whatever the amount and the policy); and starting from the
empty pool it is sorted after every sequence of calls. -/
theorem foodpool.sort_invariant (self : foodpool) (hs : foodpool.sorted_desc self.temp_food) :
    (∀ amount : Int, foodpool.sorted_desc (self.add_permfood amount).temp_food) ∧
    (∀ (elapsed_time amount : Int) (duration : Nat),
      foodpool.sorted_desc (self.add_tempfood elapsed_time amount duration).temp_food) ∧
    (∀ (amount : Int) (pool : foodpool_select),
      foodpool.sorted_desc (self.del_food amount pool).2.temp_food) ∧
    (∀ cs : List foodpool_call, foodpool.sorted_desc (foodpool.empty.calls cs).temp_food) :=
  ⟨fun amount => foodpool.call_sorted self (.add_permfood amount) hs,
    fun elapsed_time amount duration =>
      foodpool.call_sorted self (.add_tempfood elapsed_time amount duration) hs,
    fun amount pool => foodpool.call_sorted self (.del_food amount pool) hs,
    fun cs => foodpool.calls_sorted cs foodpool.empty List.Pairwise.nil⟩

/-- Witness of C1 on the pool with batches expiring at 200, 100, 50: it is
sorted, and so it is after withdrawing 4 under the temporary-only policy. -/
theorem foodpool.sort_invariant_witness :
    foodpool.sorted_desc [⟨1, 200⟩, ⟨1, 100⟩, ⟨5, 50⟩] ∧
    foodpool.sorted_desc
      ((foodpool.mk [⟨1, 200⟩, ⟨1, 100⟩, ⟨5, 50⟩] 0).del_food 4 .TEMP_FOOD_ONLY).2.temp_food :=
  ⟨by decide,
    (foodpool.sort_invariant ⟨[⟨1, 200⟩, ⟨1, 100⟩, ⟨5, 50⟩], 0⟩ (by decide)).2.2.1 4
      .TEMP_FOOD_ONLY⟩

/-- C2. Positive-batch invariant: starting from the empty pool, after every
sequence of calls in which each `add_tempfood` has a positive amount and each
`add_permfood` and `del_food` a non-negative one (any policy), every batch of
`temp_food` has `amount > 0`; and a withdrawal from a pool of positive batches
leaves only positive batches, so a batch it brings to zero is removed by it. -/
theorem foodpool.positive_batch_invariant (cs : List foodpool_call)
    (hcs : ∀ c ∈ cs, c.in_contract = true) :
    foodpool.all_positive (foodpool.empty.calls cs).temp_food ∧
    (∀ (self : foodpool) (amount : Int) (pool : foodpool_select),
      foodpool.all_positive self.temp_food →
        foodpool.all_positive (self.del_food amount pool).2.temp_food ∧
        ∀ t ∈ (self.del_food amount pool).2.temp_food, t.amount ≠ 0) :=
  ⟨foodpool.calls_positive cs foodpool.empty hcs (fun _ ht => absurd ht (List.not_mem_nil _)),
    fun self amount pool hp =>
      ⟨foodpool.del_food_positive self amount pool hp,
        fun t ht => ne_of_gt (foodpool.del_food_positive self amount pool hp t ht)⟩⟩

/-- Witness of C2: two deposits, a withdrawal that empties the batch expiring
first, and a permanent deposit. -/
theorem foodpool.positive_batch_invariant_witness :
    foodpool.all_positive
      (foodpool.empty.calls
        [.add_tempfood 0 3 100, .add_tempfood 0 2 50, .del_food 2 .TEMP_FOOD_ONLY,
          .add_permfood 0]).temp_food :=
  (foodpool.positive_batch_invariant
    [.add_tempfood 0 3 100, .add_tempfood 0 2 50, .del_food 2 .TEMP_FOOD_ONLY,
      .add_permfood 0] (by decide)).1

/-- C3. Non-negative permanent quantity: starting from `perm_food = 0`, after
every sequence of calls whose `add_permfood` amounts are non-negative
(`add_tempfood` and `del_food` with any arguments) `perm_food_qty()` is at
least 0; and `del_food` never takes a non-negative `perm_food` below zero. -/
theorem foodpool.perm_food_nonneg (self : foodpool) (h0 : self.perm_food = 0)
    (cs : List foodpool_call) (hcs : ∀ c ∈ cs, c.perm_deposit_nonneg = true) :
    0 ≤ (self.calls cs).perm_food_qty ∧
    (∀ (p : foodpool) (amount : Int) (pool : foodpool_select),
      0 ≤ p.perm_food → 0 ≤ (p.del_food amount pool).2.perm_food_qty) :=
  ⟨foodpool.calls_perm_nonneg cs self hcs (le_of_eq h0.symm),
    fun p amount pool hp => foodpool.del_food_perm_nonneg p amount pool hp⟩

/-- Witness of C3: a permanent deposit of 3, a withdrawal of 10 and one of -4. -/
theorem foodpool.perm_food_nonneg_witness :
    0 ≤ (foodpool.empty.calls
      [.add_permfood 3, .del_food 10 .PERM_FOOD_ONLY, .del_food (-4) .PERM_FOOD_PREF,
        .add_tempfood 7 (-1) 0]).perm_food_qty :=
  (foodpool.perm_food_nonneg foodpool.empty rfl
    [.add_permfood 3, .del_food 10 .PERM_FOOD_ONLY, .del_food (-4) .PERM_FOOD_PREF,
      .add_tempfood 7 (-1) 0] (by decide)).1

/-! ## The result of `del_food` on pools without negative amounts -/

namespace foodpool

theorem del_permfood_result (self : foodpool) (amount : Int) :
    self.del_permfood amount =
      (amount - max 0 (min amount self.perm_food),
        { self with perm_food := self.perm_food - max 0 (min amount self.perm_food) }) :=
  rfl

theorem del_tempfood_result (self : foodpool) (amount : Int) (ha : 0 ≤ amount)
    (hp : all_nonneg self.temp_food) :
    (self.del_tempfood amount).1 = amount - min amount self.temp_food_qty ∧
      (self.del_tempfood amount).2.temp_food_qty =
        self.temp_food_qty - min amount self.temp_food_qty ∧
      (self.del_tempfood amount).2.perm_food = self.perm_food ∧
      (0 < (self.del_tempfood amount).1 → (self.del_tempfood amount).2.temp_food = []) := by
  have h := del_tempfood_loop_result amount self.temp_food ha hp
  rw [temp_food_qty_eq, temp_food_qty_eq]
  exact ⟨h.1, h.2.1, rfl, h.2.2⟩

theorem del_tempfood_nil (self : foodpool) (amount : Int) (h : self.temp_food = []) :
    self.del_tempfood amount = (amount, self) := by
  cases self with
  | mk v p =>
    simp only at h
    subst h
    simp [del_tempfood, del_tempfood_loop_nil]

/-- Under the temporary-preferred policy: leftover, quantities left. -/
theorem del_food_temp_pref_result (self : foodpool) (amount : Int) (ha : 0 ≤ amount)
    (hperm : 0 ≤ self.perm_food) (hp : all_nonneg self.temp_food) :
    (self.del_food amount .TEMP_FOOD_PREF).1 = amount - min amount self.total_food_qty ∧
      (self.del_food amount .TEMP_FOOD_PREF).2.temp_food_qty =
        self.temp_food_qty - min amount self.temp_food_qty ∧
      (self.del_food amount .TEMP_FOOD_PREF).2.perm_food =
        self.perm_food - min (amount - min amount self.temp_food_qty) self.perm_food := by
  obtain ⟨h1, h2, h3, h4⟩ := del_tempfood_result self amount ha hp
  have hq : 0 ≤ self.temp_food_qty := by rw [temp_food_qty_eq]; exact batch_sum_nonneg hp
  rw [del_food_temp_pref]
  simp only [total_food_qty, perm_food_qty]
  split
  · rename_i hle
    refine ⟨?_, h2, ?_⟩ <;> omega
  · rename_i hgt
    have hnil := h4 (by omega)
    rw [del_tempfood_nil _ _ (by rw [del_permfood_result]; exact hnil)]
    rw [del_permfood_result]
    refine ⟨?_, ?_, ?_⟩
    · show (self.del_tempfood amount).1
        - max 0 (min (self.del_tempfood amount).1 (self.del_tempfood amount).2.perm_food) = _
      omega
    · show temp_food_qty ⟨(self.del_tempfood amount).2.temp_food, _⟩ = _
      rw [temp_food_qty_eq] at h2 ⊢
      exact h2
    · show (self.del_tempfood amount).2.perm_food
        - max 0 (min (self.del_tempfood amount).1 (self.del_tempfood amount).2.perm_food) = _
      omega

/-- Under the permanent-preferred policy: leftover, quantities left. -/
theorem del_food_perm_pref_result (self : foodpool) (amount : Int) (ha : 0 ≤ amount)
    (hperm : 0 ≤ self.perm_food) (hp : all_nonneg self.temp_food) :
    (self.del_food amount .PERM_FOOD_PREF).1 = amount - min amount self.total_food_qty ∧
      (self.del_food amount .PERM_FOOD_PREF).2.temp_food_qty =
        self.temp_food_qty - min (amount - min amount self.perm_food) self.temp_food_qty ∧
      (self.del_food amount .PERM_FOOD_PREF).2.perm_food =
        self.perm_food - min amount self.perm_food := by
  have hq : 0 ≤ self.temp_food_qty := by rw [temp_food_qty_eq]; exact batch_sum_nonneg hp
  rw [del_food_perm_pref]
  simp only [total_food_qty, perm_food_qty]
  split
  · rename_i hle
    rw [del_permfood_result] at hle ⊢
    simp only at hle ⊢
    have hmin : min (amount - min amount self.perm_food) self.temp_food_qty = 0 := by omega
    refine ⟨by omega, ?_, by omega⟩
    rw [hmin]
    show self.temp_food_qty = _
    omega
  · rename_i hgt
    rw [del_permfood_result] at hgt ⊢
    simp only at hgt ⊢
    rw [del_permfood_result]
    simp only
    have hd2 : max 0 (min (amount - max 0 (min amount self.perm_food))
        (self.perm_food - max 0 (min amount self.perm_food))) = 0 := by omega
    rw [hd2]
    have hd1 : max 0 (min amount self.perm_food) = min amount self.perm_food := by omega
    rw [hd1]
    have hp2 : all_nonneg
        (foodpool.mk self.temp_food (self.perm_food - min amount self.perm_food - 0)).temp_food :=
      hp
    obtain ⟨h1, h2, h3, _⟩ := del_tempfood_result
      (foodpool.mk self.temp_food (self.perm_food - min amount self.perm_food - 0))
      (amount - min amount self.perm_food - 0) (by omega) hp2
    have hqq : temp_food_qty
        (foodpool.mk self.temp_food (self.perm_food - min amount self.perm_food - 0))
        = self.temp_food_qty := by
      rw [temp_food_qty_eq, temp_food_qty_eq]
    rw [hqq] at h1 h2
    refine ⟨?_, ?_, ?_⟩
    · rw [h1]; omega
    · rw [h2]; simp
    · rw [h3]; simp

end foodpool

namespace foodpool

theorem del_food_temp_only_result (self : foodpool) (amount : Int) (ha : 0 ≤ amount)
    (hp : all_nonneg self.temp_food) :
    (self.del_food amount .TEMP_FOOD_ONLY).1 = amount - min amount self.temp_food_qty ∧
      (self.del_food amount .TEMP_FOOD_ONLY).2.temp_food_qty =
        self.temp_food_qty - min amount self.temp_food_qty ∧
      (self.del_food amount .TEMP_FOOD_ONLY).2.perm_food = self.perm_food := by
  rw [del_food_temp_only]
  obtain ⟨h1, h2, h3, _⟩ := del_tempfood_result self amount ha hp
  exact ⟨h1, h2, h3⟩

theorem del_food_perm_only_result (self : foodpool) (amount : Int) (ha : 0 ≤ amount)
    (hperm : 0 ≤ self.perm_food) :
    (self.del_food amount .PERM_FOOD_ONLY).1 = amount - min amount self.perm_food ∧
      (self.del_food amount .PERM_FOOD_ONLY).2.temp_food = self.temp_food ∧
      (self.del_food amount .PERM_FOOD_ONLY).2.perm_food =
        self.perm_food - min amount self.perm_food := by
  rw [del_food_perm_only, del_permfood_result]
  refine ⟨?_, rfl, ?_⟩
  · show amount - max 0 (min amount self.perm_food) = _
    omega
  · show self.perm_food - max 0 (min amount self.perm_food) = _
    omega

/-- The leftover and the total quantity left, for each policy. -/
theorem del_food_account (self : foodpool) (amount : Int) (pool : foodpool_select)
    (ha : 0 ≤ amount) (hperm : 0 ≤ self.perm_food) (hp : all_nonneg self.temp_food) :
    (self.del_food amount pool).1 = amount - min amount (self.reachable_qty pool) ∧
      (self.del_food amount pool).2.total_food_qty =
        self.total_food_qty - min amount (self.reachable_qty pool) := by
  have hq : 0 ≤ self.temp_food_qty := by rw [temp_food_qty_eq]; exact batch_sum_nonneg hp
  cases pool
  · obtain ⟨h1, h2, h3⟩ := del_food_temp_pref_result self amount ha hperm hp
    refine ⟨h1, ?_⟩
    simp only [total_food_qty, perm_food_qty, reachable_qty] at h1 ⊢
    omega
  · obtain ⟨h1, h2, h3⟩ := del_food_perm_pref_result self amount ha hperm hp
    refine ⟨h1, ?_⟩
    simp only [total_food_qty, perm_food_qty, reachable_qty] at h1 ⊢
    omega
  · obtain ⟨h1, h2, h3⟩ := del_food_temp_only_result self amount ha hp
    refine ⟨h1, ?_⟩
    simp only [total_food_qty, perm_food_qty, reachable_qty] at h1 ⊢
    omega
  · obtain ⟨h1, h2, h3⟩ := del_food_perm_only_result self amount ha hperm
    refine ⟨h1, ?_⟩
    have h4 : (self.del_food amount .PERM_FOOD_ONLY).2.temp_food_qty = self.temp_food_qty := by
      rw [temp_food_qty_eq, temp_food_qty_eq, h2]
    simp only [total_food_qty, perm_food_qty, reachable_qty] at h1 ⊢
    omega

end foodpool

/-! ## C4-C6: leftover, conservation, draining the pool -/

/-- C4. Leftover value: on a pool with `perm_food >= 0` and only positive batch
amounts, for every `amount >= 0` and every policy, `del_food` returns
`amount - min(amount, R)`, where `R` is the quantity the policy can reach; so
the leftover is 0 exactly when `amount <= R`, and non-zero exactly when the
reachable quantity is smaller than `amount`. -/
theorem foodpool.del_food_leftover (self : foodpool) (amount : Int) (pool : foodpool_select)
    (hperm : 0 ≤ self.perm_food) (hpos : foodpool.all_positive self.temp_food)
    (ha : 0 ≤ amount) :
    (self.del_food amount pool).1 = amount - min amount (self.reachable_qty pool) ∧
    ((self.del_food amount pool).1 = 0 ↔ amount ≤ self.reachable_qty pool) ∧
    ((self.del_food amount pool).1 ≠ 0 ↔ self.reachable_qty pool < amount) := by
  have h := (foodpool.del_food_account self amount pool ha hperm
    (foodpool.all_positive_nonneg hpos)).1
  refine ⟨h, ?_, ?_⟩
  · rw [h]; omega
  · rw [h]; omega

/-- Witness of C4: 5 permanent, batches of 4 and 3; asking 14 under the
temporary-preferred policy leaves 2 unmet. -/
theorem foodpool.del_food_leftover_witness :
    ((foodpool.mk [⟨4, 100⟩, ⟨3, 50⟩] 5).del_food 14 .TEMP_FOOD_PREF).1 = 2 :=
  (foodpool.del_food_leftover ⟨[⟨4, 100⟩, ⟨3, 50⟩], 5⟩ 14 .TEMP_FOOD_PREF
    (by decide) (by decide) (by decide)).1.trans (by decide)

/-- C5. Conservation: on a pool with `perm_food >= 0` and only positive batch
amounts, for every `amount >= 0` and every policy, the decrease of
`total_food_qty()` caused by `del_food` is `amount` minus the returned leftover. -/
theorem foodpool.del_food_conservation (self : foodpool) (amount : Int)
    (pool : foodpool_select) (hperm : 0 ≤ self.perm_food)
    (hpos : foodpool.all_positive self.temp_food) (ha : 0 ≤ amount) :
    self.total_food_qty - (self.del_food amount pool).2.total_food_qty =
      amount - (self.del_food amount pool).1 := by
  have h := foodpool.del_food_account self amount pool ha hperm
    (foodpool.all_positive_nonneg hpos)
  omega

/-- Witness of C5: 5 permanent, batches of 4 and 3; a permanent-preferred
withdrawal of 7 with leftover 0 lowers the total (12) by 7. -/
theorem foodpool.del_food_conservation_witness :
    (12 : Int) - ((foodpool.mk [⟨4, 100⟩, ⟨3, 50⟩] 5).del_food 7 .PERM_FOOD_PREF).2.total_food_qty
      = 7 - ((foodpool.mk [⟨4, 100⟩, ⟨3, 50⟩] 5).del_food 7 .PERM_FOOD_PREF).1 :=
  foodpool.del_food_conservation ⟨[⟨4, 100⟩, ⟨3, 50⟩], 5⟩ 7 .PERM_FOOD_PREF
    (by decide) (by decide) (by decide)

/-- C6. Drain-all: on a pool with `perm_food >= 0` and no negative batch amount,
`del_food(total_food_qty(), TEMP_FOOD_PREF)` returns 0 and leaves
`total_food_qty() == 0`. -/
theorem foodpool.drain_all (self : foodpool) (hperm : 0 ≤ self.perm_food)
    (hp : foodpool.all_nonneg self.temp_food) :
    (self.del_food self.total_food_qty .TEMP_FOOD_PREF).1 = 0 ∧
    (self.del_food self.total_food_qty .TEMP_FOOD_PREF).2.total_food_qty = 0 := by
  have hq : 0 ≤ self.temp_food_qty := by
    rw [foodpool.temp_food_qty_eq]; exact foodpool.batch_sum_nonneg hp
  have ht : 0 ≤ self.total_food_qty := by
    simp only [foodpool.total_food_qty, foodpool.perm_food_qty]; omega
  have h := foodpool.del_food_account self self.total_food_qty .TEMP_FOOD_PREF ht hperm hp
  simp only [foodpool.reachable_qty] at h
  omega

/-- Witness of C6: 5 permanent and batches of 0, 4 and 3. -/
theorem foodpool.drain_all_witness :
    ((foodpool.mk [⟨0, 300⟩, ⟨4, 100⟩, ⟨3, 50⟩] 5).del_food 12 .TEMP_FOOD_PREF).1 = 0 ∧
    ((foodpool.mk [⟨0, 300⟩, ⟨4, 100⟩, ⟨3, 50⟩] 5).del_food 12
      .TEMP_FOOD_PREF).2.total_food_qty = 0 :=
  foodpool.drain_all ⟨[⟨0, 300⟩, ⟨4, 100⟩, ⟨3, 50⟩], 5⟩ (by decide) (by decide)

/-! ## Insertion at the back and removal of the last batch -/

namespace foodpool

theorem find_if_none (pred : tfood → Bool) (v : List tfood) (h : ∀ t ∈ v, pred t = false) :
    find_if pred v = v.length := by
  induction v with
  | nil => rfl
  | cons t ts ih =>
    have h1 : pred t = false := h t (List.mem_cons_self t ts)
    have h2 := ih (fun x hx => h x (List.mem_cons_of_mem t hx))
    simp [find_if, h1, h2]

theorem vector_insert_length (v : List tfood) (x : tfood) :
    vector_insert v v.length x = v ++ [x] := by
  simp [vector_insert]

theorem batch_sum_vector_insert (v : List tfood) (i : Nat) (x : tfood) :
    batch_sum (vector_insert v i x) = batch_sum v + x.amount := by
  have h : batch_sum v = batch_sum (v.take i) + batch_sum (v.drop i) := by
    rw [← batch_sum_append, List.take_append_drop]
  unfold vector_insert
  rw [batch_sum_append, h]
  simp only [batch_sum, List.map_cons, List.sum_cons]
  omega

/-- The loop takes a last batch of exactly the requested amount off, and stops. -/
theorem del_tempfood_loop_exact_back (v : List tfood) (amount expires : Int)
    (ha : 0 < amount) :
    del_tempfood_loop amount (v ++ [⟨amount, expires⟩]) = (0, v) := by
  have hne : v ++ [(⟨amount, expires⟩ : tfood)] ≠ [] := by simp
  rw [del_tempfood_loop_step _ _ ⟨ha, hne⟩]
  have hlast : (v ++ [(⟨amount, expires⟩ : tfood)]).getLast hne = ⟨amount, expires⟩ := by simp
  rcases del_tempfood_body_cases amount (v ++ [⟨amount, expires⟩]) hne with ⟨_, he⟩ | ⟨hlt, _⟩
  · rw [he, hlast]
    simp only [sub_self, List.dropLast_concat]
    exact del_tempfood_loop_nonpos 0 v (le_refl 0)
  · rw [hlast] at hlt
    exact absurd hlt (lt_irrefl _)

end foodpool

/-! ## C7: a deposit followed by the withdrawal of the same amount -/

/-- C7, as the code has it.  For every positive amount `a`, every duration `d`
and every time `t`: on a pool without negative batch amounts, `add_tempfood(a, d)`
at time `t` followed by `del_food(a, TEMP_FOOD_ONLY)` returns leftover 0 and
brings `temp_food_qty()` back to its value before the deposit; and on every pool
whose batches all expire no sooner than the new one (the empty pool among them)
the same two calls return leftover 0 and give back the pool as it was before the
deposit, the new batch being removed entirely. -/
theorem foodpool.deposit_then_withdraw (self : foodpool) (elapsed_time a : Int) (d : Nat)
    (ha : 0 < a) :
    (foodpool.all_nonneg self.temp_food →
      ((self.add_tempfood elapsed_time a d).del_food a .TEMP_FOOD_ONLY).1 = 0 ∧
      ((self.add_tempfood elapsed_time a d).del_food a .TEMP_FOOD_ONLY).2.temp_food_qty
        = self.temp_food_qty) ∧
    ((∀ t ∈ self.temp_food, unsigned_to_int (elapsed_time + d) ≤ t.expires) →
      (self.add_tempfood elapsed_time a d).del_food a .TEMP_FOOD_ONLY = (0, self)) := by
  constructor
  · intro hp
    have hp2 : foodpool.all_nonneg (self.add_tempfood elapsed_time a d).temp_food := by
      intro t ht
      rcases foodpool.mem_vector_insert ht with ht | ht
      · subst ht; exact le_of_lt ha
      · exact hp t ht
    have hq2 : (self.add_tempfood elapsed_time a d).temp_food_qty = self.temp_food_qty + a := by
      rw [foodpool.temp_food_qty_eq, foodpool.temp_food_qty_eq]
      exact foodpool.batch_sum_vector_insert _ _ _
    have hq : 0 ≤ self.temp_food_qty := by
      rw [foodpool.temp_food_qty_eq]; exact foodpool.batch_sum_nonneg hp
    obtain ⟨h1, h2, _⟩ := foodpool.del_food_temp_only_result
      (self.add_tempfood elapsed_time a d) a (le_of_lt ha) hp2
    rw [hq2] at h1 h2
    constructor <;> omega
  · intro hlast
    rw [foodpool.del_food_temp_only]
    have hidx : find_if (fun tf => decide (unsigned_to_int (elapsed_time + d) > tf.expires))
        self.temp_food = self.temp_food.length := by
      apply foodpool.find_if_none
      intro t ht
      have := hlast t ht
      simp only [decide_eq_false_iff_not, not_lt, ge_iff_le, gt_iff_lt]
      exact this
    simp only [foodpool.del_tempfood, foodpool.add_tempfood, hidx,
      foodpool.vector_insert_length, foodpool.del_tempfood_loop_exact_back _ _ _ ha]

/-- Witness of C7 as the code has it: on the pool whose only batch holds 5 and expires at
200, depositing 3 for 100 at time 0 and withdrawing 3 gives the pool back. -/
theorem foodpool.deposit_then_withdraw_witness :
    ((foodpool.mk [⟨5, 200⟩] 1).add_tempfood 0 3 100).del_food 3 .TEMP_FOOD_ONLY
      = (0, ⟨[⟨5, 200⟩], 1⟩) :=
  (foodpool.deposit_then_withdraw ⟨[⟨5, 200⟩], 1⟩ 0 3 100 (by decide)).2 (by decide)

/-- C7 as stated fails.  On the pool whose only batch holds 5 and expires at 50,
depositing 3 for 100 at time 0 and then withdrawing 3 under the temporary-only
policy takes the 3 from the batch expiring at 50: the deposited batch
(amount 3, expiry 100) is still there.  On the pool whose only batch holds -5,
the same calls return leftover 5, not 0. -/
theorem foodpool.deposit_then_withdraw_counterexample :
    (((foodpool.mk [⟨5, 50⟩] 0).add_tempfood 0 3 100).del_food 3 .TEMP_FOOD_ONLY
        = (0, ⟨[⟨3, 100⟩, ⟨2, 50⟩], 0⟩) ∧
      (⟨3, 100⟩ : tfood) ∈
        (((foodpool.mk [⟨5, 50⟩] 0).add_tempfood 0 3 100).del_food 3
          .TEMP_FOOD_ONLY).2.temp_food ∧
      (⟨3, 100⟩ : tfood) ∉ (foodpool.mk [⟨5, 50⟩] 0).temp_food) ∧
    (((foodpool.mk [⟨-5, 50⟩] 0).add_tempfood 0 3 100).del_food 3 .TEMP_FOOD_ONLY).1 = 5 := by
  have e1 : (foodpool.mk [⟨5, 50⟩] 0).add_tempfood 0 3 100 = ⟨[⟨3, 100⟩, ⟨5, 50⟩], 0⟩ := by
    decide
  have e2 : (foodpool.mk [⟨-5, 50⟩] 0).add_tempfood 0 3 100 = ⟨[⟨3, 100⟩, ⟨-5, 50⟩], 0⟩ := by
    decide
  have b1 : foodpool.del_tempfood_body 3 [⟨3, 100⟩, ⟨5, 50⟩] (by decide)
      = (0, [⟨3, 100⟩, ⟨2, 50⟩]) := by decide
  have b2 : foodpool.del_tempfood_body 3 [⟨3, 100⟩, ⟨-5, 50⟩] (by decide)
      = (8, [⟨3, 100⟩]) := by decide
  have b3 : foodpool.del_tempfood_body 8 [⟨3, 100⟩] (by decide) = (5, []) := by decide
  have l1 : foodpool.del_tempfood_loop 3 [⟨3, 100⟩, ⟨5, 50⟩] = (0, [⟨3, 100⟩, ⟨2, 50⟩]) := by
    rw [foodpool.del_tempfood_loop_step _ _ ⟨by decide, by decide⟩, b1,
      foodpool.del_tempfood_loop_nonpos _ _ (le_refl 0)]
  have l2 : foodpool.del_tempfood_loop 3 [⟨3, 100⟩, ⟨-5, 50⟩] = (5, []) := by
    rw [foodpool.del_tempfood_loop_step _ _ ⟨by decide, by decide⟩, b2,
      foodpool.del_tempfood_loop_step _ _ ⟨by decide, by decide⟩, b3,
      foodpool.del_tempfood_loop_nil]
  rw [e1, e2, foodpool.del_food_temp_only, foodpool.del_food_temp_only]
  simp only [foodpool.del_tempfood, l1, l2]
  decide

/-! ## C8-C10: the policies -/

/-- C8. Permanent-preferred policy: on a pool with `perm_food = p >= 0` and
only positive batch amounts, of temporary quantity `q`, for every `a >= 0`,
`del_food(a, PERM_FOOD_PREF)` leaves `perm_food_qty() = p - min(a, p)` and
`temp_food_qty() = q - min(a - min(a, p), q)`: temporary food is taken only for
what permanent food could not give, and while `a <= p` the batch sequence is
not touched at all. -/
theorem foodpool.perm_pref_policy (self : foodpool) (a : Int)
    (hperm : 0 ≤ self.perm_food) (hpos : foodpool.all_positive self.temp_food) (ha : 0 ≤ a) :
    (self.del_food a .PERM_FOOD_PREF).2.perm_food_qty
      = self.perm_food_qty - min a self.perm_food_qty ∧
    (self.del_food a .PERM_FOOD_PREF).2.temp_food_qty
      = self.temp_food_qty - min (a - min a self.perm_food_qty) self.temp_food_qty ∧
    (a ≤ self.perm_food_qty →
      (self.del_food a .PERM_FOOD_PREF).2.temp_food = self.temp_food) := by
  obtain ⟨_, h2, h3⟩ := foodpool.del_food_perm_pref_result self a ha hperm
    (foodpool.all_positive_nonneg hpos)
  refine ⟨h3, h2, ?_⟩
  intro hle
  simp only [foodpool.perm_food_qty] at hle
  have hstop : (self.del_permfood a).1 ≤ 0 := by
    rw [foodpool.del_permfood_result]
    show a - max 0 (min a self.perm_food) ≤ 0
    omega
  rw [foodpool.del_food_perm_pref, if_pos hstop]
  rfl

/-- Witness of C8: permanent 5, batches of 4 and 3 (7 in all), withdrawing 10
leaves permanent 0, temporary 2, and the leftover is 0. -/
theorem foodpool.perm_pref_policy_witness :
    ((foodpool.mk [⟨4, 100⟩, ⟨3, 50⟩] 5).del_food 10 .PERM_FOOD_PREF).2.perm_food_qty = 0 ∧
    ((foodpool.mk [⟨4, 100⟩, ⟨3, 50⟩] 5).del_food 10 .PERM_FOOD_PREF).2.temp_food_qty = 2 ∧
    ((foodpool.mk [⟨4, 100⟩, ⟨3, 50⟩] 5).del_food 10 .PERM_FOOD_PREF).1 = 0 :=
  ⟨(foodpool.perm_pref_policy ⟨[⟨4, 100⟩, ⟨3, 50⟩], 5⟩ 10
      (by decide) (by decide) (by decide)).1.trans (by decide),
    (foodpool.perm_pref_policy ⟨[⟨4, 100⟩, ⟨3, 50⟩], 5⟩ 10
      (by decide) (by decide) (by decide)).2.1.trans (by decide),
    (foodpool.del_food_account ⟨[⟨4, 100⟩, ⟨3, 50⟩], 5⟩ 10 .PERM_FOOD_PREF
      (by decide) (by decide) (by decide)).1.trans (by decide)⟩

/-- C9. Permanent-only policy: on a pool with `perm_food = p >= 0`, for every
`a >= 0`, `del_food(a, PERM_FOOD_ONLY)` sets `perm_food` to `p - min(a, p)`,
returns `a - min(a, p)` and leaves the batch sequence `temp_food` as it was. -/
theorem foodpool.perm_only_policy (self : foodpool) (a : Int)
    (hperm : 0 ≤ self.perm_food) (ha : 0 ≤ a) :
    (self.del_food a .PERM_FOOD_ONLY).2.perm_food = self.perm_food - min a self.perm_food ∧
    (self.del_food a .PERM_FOOD_ONLY).1 = a - min a self.perm_food ∧
    (self.del_food a .PERM_FOOD_ONLY).2.temp_food = self.temp_food := by
  obtain ⟨h1, h2, h3⟩ := foodpool.del_food_perm_only_result self a ha hperm
  exact ⟨h3, h1, h2⟩

/-- Witness of C9: permanent 3, no batch, withdrawing 10 leaves permanent 0
and returns 7. -/
theorem foodpool.perm_only_policy_witness :
    ((foodpool.mk [] 3).del_food 10 .PERM_FOOD_ONLY).2.perm_food = 0 ∧
    ((foodpool.mk [] 3).del_food 10 .PERM_FOOD_ONLY).1 = 7 ∧
    ((foodpool.mk [] 3).del_food 10 .PERM_FOOD_ONLY).2.temp_food = [] :=
  ⟨(foodpool.perm_only_policy ⟨[], 3⟩ 10 (by decide) (by decide)).1.trans (by decide),
    (foodpool.perm_only_policy ⟨[], 3⟩ 10 (by decide) (by decide)).2.1.trans (by decide),
    (foodpool.perm_only_policy ⟨[], 3⟩ 10 (by decide) (by decide)).2.2⟩

/-- C10. Temporary-only frame: for every pool and every amount, of any sign,
`del_food(amount, TEMP_FOOD_ONLY)` leaves `perm_food` unchanged. -/
theorem foodpool.temp_only_keeps_perm (self : foodpool) (amount : Int) :
    (self.del_food amount .TEMP_FOOD_ONLY).2.perm_food = self.perm_food := by
  rw [foodpool.del_food_temp_only]
  rfl

/-! ## C11-C12: the temporary-only drain and the temporary-preferred policy -/

namespace foodpool

theorem drained_from_self (v : List tfood) (hp : all_positive v) : drained_from v v := by
  by_cases h : v = []
  · exact Or.inl h
  · refine Or.inr ⟨v.dropLast, v.getLast h, [], (v.getLast h).amount, ?_, ?_, ?_, le_refl _⟩
    · exact (List.dropLast_append_getLast h).symm
    · exact (List.dropLast_append_getLast h).symm
    · exact hp _ (List.getLast_mem h)

theorem drained_from_front (v l : List tfood) (b : tfood) (r : List tfood)
    (hp : all_positive v) (hv : v = l ++ b :: r) : drained_from v l := by
  by_cases h : l = []
  · exact Or.inl h
  · refine Or.inr ⟨l.dropLast, l.getLast h, b :: r, (l.getLast h).amount, ?_, ?_, ?_, le_refl _⟩
    · rw [hv]
      conv_lhs => rw [← List.dropLast_append_getLast h]
      simp
    · exact (List.dropLast_append_getLast h).symm
    · apply hp
      rw [hv]
      exact List.mem_append_left _ (List.getLast_mem h)

theorem del_tempfood_loop_drained (amount : Int) (v : List tfood) (hp : all_positive v) :
    drained_from v (del_tempfood_loop amount v).2 := by
  refine del_tempfood_loop_invariant (fun _ w => drained_from v w) ?_ amount v
    (drained_from_self v hp)
  intro a w h ha hw
  rcases hw with hw | ⟨l, b, r, m, hv, hw, hm1, hm2⟩
  · exact absurd hw h
  · subst hw
    have hlast : (l ++ [({ b with amount := m } : tfood)]).getLast h = { b with amount := m } := by
      simp
    rcases del_tempfood_body_cases a _ h with ⟨_, he⟩ | ⟨hlt, he⟩
    · rw [he, List.dropLast_concat]
      exact drained_from_front v l b r hp hv
    · rw [he, List.dropLast_concat, hlast]
      rw [hlast] at hlt
      refine Or.inr ⟨l, b, r, m - a, hv, rfl, ?_, ?_⟩
      · have : a < m := hlt
        omega
      · omega

theorem sorted_desc_split (l : List tfood) (b : tfood) (r : List tfood)
    (hs : sorted_desc (l ++ b :: r)) :
    (∀ t ∈ l, b.expires ≤ t.expires) ∧ (∀ t ∈ r, t.expires ≤ b.expires) := by
  unfold sorted_desc at hs
  rw [List.pairwise_append] at hs
  refine ⟨fun t ht => hs.2.2 t ht b (List.mem_cons_self b r), ?_⟩
  exact (List.pairwise_cons.mp hs.2.1).1

end foodpool

/-- C11. Temporary-only drain order: on a pool whose batches all have positive
amounts, for every `a >= 0`, after `del_food(a, TEMP_FOOD_ONLY)` the batch
sequence is a front part of the original one, unchanged except that its last
batch keeps its `expires` and has an amount between 1 and its original amount.
On a sorted pool the batches taken off all expire no later than that last
batch, and the batches left all expire no sooner: a batch is reduced only after
every batch expiring sooner is gone. -/
theorem foodpool.temp_only_drain_order (self : foodpool) (a : Int)
    (hpos : foodpool.all_positive self.temp_food) (ha : 0 ≤ a) :
    foodpool.drained_from self.temp_food (self.del_food a .TEMP_FOOD_ONLY).2.temp_food ∧
    (foodpool.sorted_desc self.temp_food →
      ∀ (l : List tfood) (b : tfood) (r : List tfood) (m : Int),
        self.temp_food = l ++ b :: r →
        (self.del_food a .TEMP_FOOD_ONLY).2.temp_food = l ++ [{ b with amount := m }] →
          (∀ t ∈ r, t.expires ≤ b.expires) ∧
          (∀ t ∈ (self.del_food a .TEMP_FOOD_ONLY).2.temp_food, b.expires ≤ t.expires)) := by
  have _ := ha
  refine ⟨?_, ?_⟩
  · rw [foodpool.del_food_temp_only]
    exact foodpool.del_tempfood_loop_drained a self.temp_food hpos
  · intro hs l b r m hv hw
    rw [hv] at hs
    obtain ⟨h1, h2⟩ := foodpool.sorted_desc_split l b r hs
    refine ⟨h2, ?_⟩
    rw [hw]
    intro t ht
    rcases List.mem_append.mp ht with ht | ht
    · exact h1 t ht
    · rw [List.mem_singleton] at ht
      subst ht
      exact le_refl _

/-- Witness of C11: batches of 2 expiring at 200, 100 and 50; withdrawing 1
under the temporary-only policy reduces only the batch expiring at 50. -/
theorem foodpool.temp_only_drain_order_witness :
    foodpool.drained_from [⟨2, 200⟩, ⟨2, 100⟩, ⟨2, 50⟩]
      ((foodpool.mk [⟨2, 200⟩, ⟨2, 100⟩, ⟨2, 50⟩] 0).del_food 1 .TEMP_FOOD_ONLY).2.temp_food ∧
    ((foodpool.mk [⟨2, 200⟩, ⟨2, 100⟩, ⟨2, 50⟩] 0).del_food 1 .TEMP_FOOD_ONLY).2.temp_food
      = [⟨2, 200⟩, ⟨2, 100⟩, ⟨1, 50⟩] := by
  refine ⟨(foodpool.temp_only_drain_order ⟨[⟨2, 200⟩, ⟨2, 100⟩, ⟨2, 50⟩], 0⟩ 1
    (by decide) (by decide)).1, ?_⟩
  have b1 : foodpool.del_tempfood_body 1 [⟨2, 200⟩, ⟨2, 100⟩, ⟨2, 50⟩] (by decide)
      = (0, [⟨2, 200⟩, ⟨2, 100⟩, ⟨1, 50⟩]) := by decide
  rw [foodpool.del_food_temp_only]
  simp only [foodpool.del_tempfood]
  rw [foodpool.del_tempfood_loop_step _ _ ⟨by decide, by decide⟩, b1,
    foodpool.del_tempfood_loop_nonpos _ _ (le_refl 0)]

/-- C12. The temporary-preferred policy is temporary-only followed by
permanent-only: on a pool with `perm_food >= 0` and only positive batch amounts,
for every `a >= 0`, `del_food(a, TEMP_FOOD_PREF)` gives the same final pool and
the same returned value as `del_food(a, TEMP_FOOD_ONLY)` followed by
`del_food(r, PERM_FOOD_ONLY)` on its leftover `r`. -/
theorem foodpool.temp_pref_refines (self : foodpool) (a : Int)
    (hperm : 0 ≤ self.perm_food) (hpos : foodpool.all_positive self.temp_food) (ha : 0 ≤ a) :
    self.del_food a .TEMP_FOOD_PREF = self.temp_only_then_perm_only a := by
  have _ := hperm
  obtain ⟨h1, _, _, h4⟩ := foodpool.del_tempfood_result self a ha
    (foodpool.all_positive_nonneg hpos)
  have hq : 0 ≤ self.temp_food_qty := by
    rw [foodpool.temp_food_qty_eq]
    exact foodpool.batch_sum_nonneg (foodpool.all_positive_nonneg hpos)
  unfold foodpool.temp_only_then_perm_only
  simp only [foodpool.del_food_temp_only, foodpool.del_food_perm_only]
  rw [foodpool.del_food_temp_pref]
  split
  · rename_i hle
    have h0 : (self.del_tempfood a).1 = 0 := by omega
    rw [foodpool.del_permfood_result, h0]
    have hd : max 0 (min 0 (self.del_tempfood a).2.perm_food) = 0 := by omega
    rw [hd]
    ext <;> simp [h0]
  · rename_i hgt
    have hnil := h4 (by omega)
    exact foodpool.del_tempfood_nil _ _ (by rw [foodpool.del_permfood_result]; exact hnil)

/-- Witness of C12: 5 permanent, batches of 4 and 3, withdrawing 10. -/
theorem foodpool.temp_pref_refines_witness :
    (foodpool.mk [⟨4, 100⟩, ⟨3, 50⟩] 5).del_food 10 .TEMP_FOOD_PREF
      = (foodpool.mk [⟨4, 100⟩, ⟨3, 50⟩] 5).temp_only_then_perm_only 10 :=
  foodpool.temp_pref_refines ⟨[⟨4, 100⟩, ⟨3, 50⟩], 5⟩ 10 (by decide) (by decide) (by decide)

/-! ## C13-C16: where `add_tempfood` puts the new batch -/

theorem unsigned_to_int_of_int_range (u : Int) (h1 : -(2 ^ 31) ≤ u) (h2 : u < 2 ^ 31) :
    unsigned_to_int u = u := by
  unfold unsigned_to_int
  norm_num at h1 h2 ⊢
  split <;> omega

namespace foodpool

/-- What `find_if` returns: no element before the position satisfies the
predicate, and the element at the position, when there is one, does. -/
theorem find_if_split (pred : tfood → Bool) (v : List tfood) :
    (∀ t ∈ v.take (find_if pred v), pred t = false) ∧
      (v.drop (find_if pred v) = [] ∨
        ∃ (b : tfood) (r : List tfood), v.drop (find_if pred v) = b :: r ∧ pred b = true) := by
  induction v with
  | nil => simp [find_if]
  | cons t ts ih =>
    by_cases hp : pred t = true
    · simp only [find_if, hp, if_true, List.take_zero, List.drop_zero]
      exact ⟨fun x hx => absurd hx (List.not_mem_nil x), Or.inr ⟨t, ts, rfl, hp⟩⟩
    · have hf : pred t = false := by simpa using hp
      simp only [find_if, hf, Bool.false_eq_true, if_false, List.take_succ_cons,
        List.drop_succ_cons]
      refine ⟨?_, ih.2⟩
      intro x hx
      rcases List.mem_cons.mp hx with hx | hx
      · rw [hx]; exact hf
      · exact ih.1 x hx

/-- The batch sequence after `add_tempfood`, split at the new batch. -/
theorem add_tempfood_split (self : foodpool) (elapsed_time amount : Int) (duration : Nat) :
    ∃ (l1 l2 : List tfood),
      self.temp_food = l1 ++ l2 ∧
      (self.add_tempfood elapsed_time amount duration).temp_food
        = l1 ++ [⟨amount, unsigned_to_int (elapsed_time + duration)⟩] ++ l2 ∧
      (∀ t ∈ l1, unsigned_to_int (elapsed_time + duration) ≤ t.expires) ∧
      (l2 = [] ∨ ∃ (b : tfood) (r : List tfood),
        l2 = b :: r ∧ b.expires < unsigned_to_int (elapsed_time + duration)) := by
  obtain ⟨h1, h2⟩ := find_if_split
    (fun tf => decide (unsigned_to_int (elapsed_time + duration) > tf.expires)) self.temp_food
  refine ⟨self.temp_food.take (find_if
      (fun tf => decide (unsigned_to_int (elapsed_time + duration) > tf.expires)) self.temp_food),
    self.temp_food.drop (find_if
      (fun tf => decide (unsigned_to_int (elapsed_time + duration) > tf.expires)) self.temp_food),
    (List.take_append_drop _ _).symm, ?_, ?_, ?_⟩
  · simp [add_tempfood, vector_insert]
  · intro t ht
    have := h1 t ht
    simpa using this
  · rcases h2 with h2 | ⟨b, r, h2, hb⟩
    · exact Or.inl h2
    · exact Or.inr ⟨b, r, h2, by simpa using hb⟩

theorem add_tempfood_perm (self : foodpool) (elapsed_time amount : Int) (duration : Nat) :
    List.Perm (self.add_tempfood elapsed_time amount duration).temp_food
      (⟨amount, unsigned_to_int (elapsed_time + duration)⟩ :: self.temp_food) := by
  obtain ⟨l1, l2, h1, h2, _, _⟩ := add_tempfood_split self elapsed_time amount duration
  rw [h1, h2]
  simp

theorem add_tempfoods_perm (deps : List tempfood_deposit) (self : foodpool) :
    List.Perm (self.add_tempfoods deps).temp_food
      (deps.map tempfood_deposit.batch ++ self.temp_food) := by
  induction deps generalizing self with
  | nil => exact List.Perm.refl _
  | cons dep deps ih =>
    have h1 := ih (self.add_tempfood dep.elapsed_time dep.amount dep.duration)
    have h2 := add_tempfood_perm self dep.elapsed_time dep.amount dep.duration
    have h3 : List.Perm
        (deps.map tempfood_deposit.batch
          ++ (self.add_tempfood dep.elapsed_time dep.amount dep.duration).temp_food)
        (deps.map tempfood_deposit.batch ++ dep.batch :: self.temp_food) :=
      List.Perm.append_left _ h2
    have h4 : List.Perm (deps.map tempfood_deposit.batch ++ dep.batch :: self.temp_food)
        (dep.batch :: (deps.map tempfood_deposit.batch ++ self.temp_food)) :=
      List.perm_middle
    exact (h1.trans h3).trans h4

theorem add_tempfoods_sorted (deps : List tempfood_deposit) (self : foodpool)
    (hs : sorted_desc self.temp_food) : sorted_desc (self.add_tempfoods deps).temp_food := by
  induction deps generalizing self with
  | nil => exact hs
  | cons dep deps ih =>
    exact ih (self.add_tempfood dep.elapsed_time dep.amount dep.duration)
      (insert_sorted self.temp_food _ hs)

end foodpool

/-- C13. Insertion position: `add_tempfood(amount, duration)` called at time
`now` turns the batch sequence `L` into `L1 ++ [new] ++ L2`, where `L = L1 ++ L2`,
`new` has the given amount and the expiry computed from `now + duration`, every
batch of `L1` expires no sooner than `new`, and `L2` is empty or starts with a
batch that expires sooner than `new` (the first such batch from the front);
`perm_food` is unchanged.  The expiry is the `int` value of the source
expression `you.elapsed_time + duration`, which is `now + duration` whenever
that sum is an `int`. -/
theorem foodpool.insertion_position (self : foodpool) (now amount : Int) (duration : Nat) :
    (∃ (l1 l2 : List tfood),
      self.temp_food = l1 ++ l2 ∧
      (self.add_tempfood now amount duration).temp_food
        = l1 ++ [⟨amount, unsigned_to_int (now + duration)⟩] ++ l2 ∧
      (∀ t ∈ l1, unsigned_to_int (now + duration) ≤ t.expires) ∧
      (l2 = [] ∨ ∃ (b : tfood) (r : List tfood),
        l2 = b :: r ∧ b.expires < unsigned_to_int (now + duration))) ∧
    (self.add_tempfood now amount duration).perm_food = self.perm_food ∧
    (-(2 ^ 31) ≤ now + duration → now + duration < 2 ^ 31 →
      unsigned_to_int (now + duration) = now + duration) :=
  ⟨foodpool.add_tempfood_split self now amount duration, rfl,
    unsigned_to_int_of_int_range (now + duration)⟩

/-- Witness of C13: at time 0 a duration of 100 gives the expiry 100, and the
deposit of 2 into batches expiring at 200 and 50 lands between them. -/
theorem foodpool.insertion_position_witness :
    unsigned_to_int (0 + (100 : Nat)) = 0 + (100 : Nat) ∧
    ((foodpool.mk [⟨1, 200⟩, ⟨1, 50⟩] 0).add_tempfood 0 2 100).temp_food
      = [⟨1, 200⟩, ⟨2, 100⟩, ⟨1, 50⟩] :=
  ⟨(foodpool.insertion_position ⟨[⟨1, 200⟩, ⟨1, 50⟩], 0⟩ 0 2 100).2.2 (by decide) (by decide),
    by decide⟩

/-- C14 as stated fails on the pool whose only batch holds 1 and
expires at 100: depositing 2 for 100 at time 0 gives a batch with the same
expiry, and it is placed behind the existing batch, not in front of it. -/
theorem foodpool.tie_breaking_counterexample :
    foodpool.sorted_desc (foodpool.mk [⟨1, 100⟩] 0).temp_food ∧
    ((foodpool.mk [⟨1, 100⟩] 0).add_tempfood 0 2 100).temp_food = [⟨1, 100⟩, ⟨2, 100⟩] ∧
    ((foodpool.mk [⟨1, 100⟩] 0).add_tempfood 0 2 100).temp_food ≠ [⟨2, 100⟩, ⟨1, 100⟩] := by
  decide

/-- C14, as the code has it.  On a sorted pool, after `add_tempfood` the new
batch is placed before every existing batch whose `expires` is smaller than its
own, and behind every existing batch whose `expires` is equal or larger: a new
batch goes behind the existing batches with the same expiry. -/
theorem foodpool.tie_breaking (self : foodpool) (now amount : Int) (duration : Nat)
    (hs : foodpool.sorted_desc self.temp_food) :
    ∃ (l1 l2 : List tfood),
      self.temp_food = l1 ++ l2 ∧
      (self.add_tempfood now amount duration).temp_food
        = l1 ++ [⟨amount, unsigned_to_int (now + duration)⟩] ++ l2 ∧
      (∀ t ∈ l1, unsigned_to_int (now + duration) ≤ t.expires) ∧
      (∀ t ∈ l2, t.expires < unsigned_to_int (now + duration)) := by
  obtain ⟨l1, l2, h1, h2, h3, h4⟩ := foodpool.add_tempfood_split self now amount duration
  refine ⟨l1, l2, h1, h2, h3, ?_⟩
  rcases h4 with h4 | ⟨b, r, h4, hb⟩
  · rw [h4]
    exact fun t ht => absurd ht (List.not_mem_nil t)
  · rw [h1, h4] at hs
    have hr := (foodpool.sorted_desc_split l1 b r hs).2
    rw [h4]
    intro t ht
    rcases List.mem_cons.mp ht with ht | ht
    · rw [ht]; exact hb
    · exact lt_of_le_of_lt (hr t ht) hb

/-- Witness of C14 as the code has it, on batches expiring at 200, 100, 50. -/
theorem foodpool.tie_breaking_witness :
    ∃ (l1 l2 : List tfood),
      [(⟨1, 200⟩ : tfood), ⟨1, 100⟩, ⟨1, 50⟩] = l1 ++ l2 ∧
      ((foodpool.mk [⟨1, 200⟩, ⟨1, 100⟩, ⟨1, 50⟩] 0).add_tempfood 0 2 100).temp_food
        = l1 ++ [⟨2, unsigned_to_int (0 + (100 : Nat))⟩] ++ l2 ∧
      (∀ t ∈ l1, unsigned_to_int (0 + (100 : Nat)) ≤ t.expires) ∧
      (∀ t ∈ l2, t.expires < unsigned_to_int (0 + (100 : Nat))) :=
  foodpool.tie_breaking ⟨[⟨1, 200⟩, ⟨1, 100⟩, ⟨1, 50⟩], 0⟩ 0 2 100 (by decide)

/-- C15. Deposits sort the pool: starting from the empty pool, after any finite
sequence of `add_tempfood` calls the batch sequence is a permutation of the
deposited batches (each one present exactly once, with its amount and expiry)
and is in descending order of `expires`. -/
theorem foodpool.deposits_sort_the_pool (deps : List tempfood_deposit) :
    List.Perm (foodpool.empty.add_tempfoods deps).temp_food
      (deps.map tempfood_deposit.batch) ∧
    foodpool.sorted_desc (foodpool.empty.add_tempfoods deps).temp_food := by
  refine ⟨?_, foodpool.add_tempfoods_sorted deps foodpool.empty List.Pairwise.nil⟩
  have h := foodpool.add_tempfoods_perm deps foodpool.empty
  simpa [foodpool.empty] using h

/-- The ordering scenario of the specification: deposits expiring at 100, 50
and 200, made in that order, give the sequence 200, 100, 50. -/
theorem foodpool.ordering_scenario :
    (foodpool.empty.add_tempfoods [⟨0, 1, 100⟩, ⟨0, 2, 50⟩, ⟨0, 3, 200⟩]).temp_food
      = [⟨3, 200⟩, ⟨1, 100⟩, ⟨2, 50⟩] := by
  decide

/-- C16 as stated fails: `add_tempfood` called on the empty pool at time 0 with
the negative amount -5 and the duration 0 is not rejected, it adds the batch
with amount -5 expiring at 0. -/
theorem foodpool.invalid_deposit_counterexample :
    (-5 : Int) < 0 ∧ (0 : Nat) ≤ 0 ∧
    foodpool.empty.add_tempfood 0 (-5) 0 = ⟨[⟨-5, 0⟩], 0⟩ := by
  decide

/-- C16, as the code has it.  `add_tempfood` checks none of its arguments: for
every amount, negative and zero included, and every duration, zero included (a
negative duration is excluded by the parameter type `unsigned`), it adds exactly
one batch, holding the amount as given and the expiry computed from
`you.elapsed_time + duration`, and it keeps every batch that was there. -/
theorem foodpool.add_tempfood_unchecked (self : foodpool) (now amount : Int)
    (duration : Nat) :
    (self.add_tempfood now amount duration).temp_food.length
      = self.temp_food.length + 1 ∧
    (⟨amount, unsigned_to_int (now + duration)⟩ : tfood)
      ∈ (self.add_tempfood now amount duration).temp_food ∧
    (∀ t ∈ self.temp_food, t ∈ (self.add_tempfood now amount duration).temp_food) := by
  have hperm := foodpool.add_tempfood_perm self now amount duration
  refine ⟨?_, ?_, ?_⟩
  · rw [hperm.length_eq]
    rfl
  · exact hperm.mem_iff.mpr (List.mem_cons_self _ _)
  · intro t ht
    exact hperm.mem_iff.mpr (List.mem_cons_of_mem _ ht)

/-! ## C17-C18: what the deposits do to the quantities -/

/-- C17. Permanent deposit: for every pool and every amount (so for every
`amount >= 0`), `add_permfood(amount)` increases `perm_food_qty()` by exactly
`amount` and leaves the batch sequence `temp_food` unchanged; with `amount = 0`
the whole pool is unchanged. -/
theorem foodpool.add_permfood_effect (self : foodpool) (amount : Int) :
    (self.add_permfood amount).perm_food_qty = self.perm_food_qty + amount ∧
    (self.add_permfood amount).temp_food = self.temp_food ∧
    self.add_permfood 0 = self := by
  refine ⟨rfl, rfl, ?_⟩
  cases self
  simp [foodpool.add_permfood]

/-- C18. Quantity accounting of a temporary deposit: `temp_food_qty()` is the
sum of all batch amounts and `total_food_qty()` is
`perm_food_qty() + temp_food_qty()`; `add_tempfood(amount, duration)` increases
`temp_food_qty()` and `total_food_qty()` by exactly `amount`, wherever the batch
is inserted, and leaves `perm_food_qty()` unchanged. -/
theorem foodpool.add_tempfood_accounting (self : foodpool) (now amount : Int)
    (duration : Nat) :
    self.temp_food_qty = (self.temp_food.map tfood.amount).sum ∧
    self.total_food_qty = self.perm_food_qty + self.temp_food_qty ∧
    (self.add_tempfood now amount duration).temp_food_qty = self.temp_food_qty + amount ∧
    (self.add_tempfood now amount duration).total_food_qty = self.total_food_qty + amount ∧
    (self.add_tempfood now amount duration).perm_food_qty = self.perm_food_qty := by
  have h : (self.add_tempfood now amount duration).temp_food_qty
      = self.temp_food_qty + amount := by
    rw [foodpool.temp_food_qty_eq, foodpool.temp_food_qty_eq]
    exact foodpool.batch_sum_vector_insert _ _ _
  refine ⟨foodpool.temp_food_qty_eq self, rfl, h, ?_, rfl⟩
  have hp : (self.add_tempfood now amount duration).perm_food_qty = self.perm_food_qty := rfl
  simp only [foodpool.total_food_qty, hp, h]
  omega

/-! ## C19-C20: the hunger-state classifier -/

theorem food_change_loop_step (k : hunger_constants) (hunger : Int) (newstate : Nat)
    (h : newstate < HS_ENGORGED ∧ hunger > hunger_threshold k newstate) :
    food_change_loop k hunger newstate = food_change_loop k hunger (newstate + 1) := by
  rw [food_change_loop, if_pos h]

theorem food_change_loop_stop (k : hunger_constants) (hunger : Int) (newstate : Nat)
    (h : ¬ (newstate < HS_ENGORGED ∧ hunger > hunger_threshold k newstate)) :
    food_change_loop k hunger newstate = newstate := by
  rw [food_change_loop, if_neg h]

/-- The state the loop ends in, started from `newstate`: every state passed has
its threshold below `hunger`, and the final state, if it is not `HS_ENGORGED`,
has its threshold at or above `hunger`. -/
theorem food_change_loop_spec (k : hunger_constants) (hunger : Int) (newstate : Nat)
    (hstart : newstate ≤ HS_ENGORGED) :
    newstate ≤ food_change_loop k hunger newstate ∧
      food_change_loop k hunger newstate ≤ HS_ENGORGED ∧
      (∀ i, newstate ≤ i → i < food_change_loop k hunger newstate →
        hunger_threshold k i < hunger) ∧
      (food_change_loop k hunger newstate < HS_ENGORGED →
        hunger ≤ hunger_threshold k (food_change_loop k hunger newstate)) := by
  induction newstate using food_change_loop.induct k hunger with
  | case1 s h ih =>
    rw [food_change_loop_step k hunger s h]
    obtain ⟨h1, h2, h3, h4⟩ := ih (by have := h.1; omega)
    refine ⟨by omega, h2, ?_, h4⟩
    intro i hi1 hi2
    rcases Nat.eq_or_lt_of_le hi1 with heq | hlt
    · rw [← heq]; exact h.2
    · exact h3 i hlt hi2
  | case2 s h =>
    rw [food_change_loop_stop k hunger s h]
    refine ⟨le_refl s, hstart, ?_, ?_⟩
    · intro i hi1 hi2
      omega
    · intro hs
      by_contra hc
      exact h ⟨hs, not_le.mp hc⟩

theorem food_change_loop_mono (k : hunger_constants) (h1 h2 : Int) (hle : h1 ≤ h2) :
    food_change_loop k h1 HS_FAINTING ≤ food_change_loop k h2 HS_FAINTING := by
  obtain ⟨_, _, a3, _⟩ := food_change_loop_spec k h1 HS_FAINTING (by decide)
  obtain ⟨_, b2, _, b4⟩ := food_change_loop_spec k h2 HS_FAINTING (by decide)
  by_contra hc
  have hlt : food_change_loop k h2 HS_FAINTING < food_change_loop k h1 HS_FAINTING :=
    not_le.mp hc
  have hx := a3 _ (Nat.zero_le _) hlt
  have hy := b4 (by omega)
  omega

theorem food_change_result (k : hunger_constants) (you : player) (initial : Bool) :
    (food_change k you initial).1
        = decide (food_change_loop k
            (min (you_max_hunger k you) (max (you_min_hunger k you) you.hunger)) HS_FAINTING
          ≠ you.hunger_state) ∧
      (food_change k you initial).2
        = { you with
            hunger := min (you_max_hunger k you) (max (you_min_hunger k you) you.hunger)
            hunger_state := food_change_loop k
              (min (you_max_hunger k you) (max (you_min_hunger k you) you.hunger))
              HS_FAINTING } := by
  unfold food_change
  have hmax : you_max_hunger k { you with hunger := max (you_min_hunger k you) you.hunger }
      = you_max_hunger k you := rfl
  simp only [hmax]
  split
  · rename_i hne
    exact ⟨by simp [hne], rfl⟩
  · rename_i heq
    have heq2 := not_not.mp heq
    simp only at heq2
    refine ⟨by simp [heq2], ?_⟩
    rw [heq2]

/-- C19. Classifier change report: for every player state, `food_change`
returns true if and only if the hunger state it computes from the clamped
hunger differs from the recorded `you.hunger_state`, and in every case it
leaves `you.hunger_state` equal to the state it computed (and `you.hunger`
clamped); so a second `food_change` right after the first returns false. -/
theorem food_change_report (k : hunger_constants) (you : player) (initial : Bool) :
    ((food_change k you initial).1 = true ↔
      food_change_loop k
        (min (you_max_hunger k you) (max (you_min_hunger k you) you.hunger)) HS_FAINTING
        ≠ you.hunger_state) ∧
    (food_change k you initial).2.hunger_state
      = food_change_loop k
        (min (you_max_hunger k you) (max (you_min_hunger k you) you.hunger)) HS_FAINTING ∧
    (food_change k you initial).2.hunger
      = min (you_max_hunger k you) (max (you_min_hunger k you) you.hunger) ∧
    (∀ again : Bool, (food_change k (food_change k you initial).2 again).1 = false) := by
  obtain ⟨h1, h2⟩ := food_change_result k you initial
  refine ⟨?_, ?_, ?_, ?_⟩
  · rw [h1]; simp
  · rw [h2]
  · rw [h2]
  · intro again
    obtain ⟨g1, _⟩ := food_change_result k (food_change k you initial).2 again
    rw [g1, h2]
    have hmax : ∀ (x : Int) (s : Nat),
        you_max_hunger k { you with hunger := x, hunger_state := s } = you_max_hunger k you :=
      fun _ _ => rfl
    have hmin : ∀ (x : Int) (s : Nat),
        you_min_hunger k { you with hunger := x, hunger_state := s } = you_min_hunger k you :=
      fun _ _ => rfl
    simp only [hmax, hmin]
    have hidem : min (you_max_hunger k you) (max (you_min_hunger k you)
        (min (you_max_hunger k you) (max (you_min_hunger k you) you.hunger)))
        = min (you_max_hunger k you) (max (you_min_hunger k you) you.hunger) := by
      omega
    rw [hidem]
    simp

/-- C20. Classifier monotonicity: the state `food_change` computes for a
hunger value is the smallest state `i` below `HS_ENGORGED` with
`hunger <= hunger_threshold[i]`, or `HS_ENGORGED` when there is none; the
state recorded by `food_change` is this function of the clamped hunger alone,
whatever the previous state; and for `h1 <= h2` the state for `h1` is at most
the state for `h2`. -/
theorem hunger_state_monotone (k : hunger_constants) (h1 h2 : Int) (hle : h1 ≤ h2) :
    (food_change_loop k h1 HS_FAINTING ≤ HS_ENGORGED ∧
      (∀ i, i < food_change_loop k h1 HS_FAINTING → hunger_threshold k i < h1) ∧
      (food_change_loop k h1 HS_FAINTING < HS_ENGORGED →
        h1 ≤ hunger_threshold k (food_change_loop k h1 HS_FAINTING))) ∧
    (∀ (you : player) (initial : Bool),
      (food_change k you initial).2.hunger_state
        = food_change_loop k
          (min (you_max_hunger k you) (max (you_min_hunger k you) you.hunger)) HS_FAINTING) ∧
    food_change_loop k h1 HS_FAINTING ≤ food_change_loop k h2 HS_FAINTING := by
  obtain ⟨_, a2, a3, a4⟩ := food_change_loop_spec k h1 HS_FAINTING (by decide)
  refine ⟨⟨a2, fun i hi => a3 i (Nat.zero_le i) hi, a4⟩, ?_, food_change_loop_mono k h1 h2 hle⟩
  intro you initial
  rw [(food_change_result k you initial).2]

/-- Witness of C20 with the sample thresholds: the state for hunger 100 is at
most the state for hunger 5000. -/
theorem hunger_state_monotone_witness :
    food_change_loop sample_constants 100 HS_FAINTING
      ≤ food_change_loop sample_constants 5000 HS_FAINTING :=
  (hunger_state_monotone sample_constants 100 5000 (by decide)).2.2

/-! ## C21: the cap of `lessen_hunger` -/

/-- The loop of `food_change` stops at or before a state whose threshold is not
below the hunger. -/
theorem food_change_loop_le (k : hunger_constants) (hunger : Int) (m : Nat)
    (hm : m ≤ HS_ENGORGED) (h : m < HS_ENGORGED → hunger ≤ hunger_threshold k m) :
    food_change_loop k hunger HS_FAINTING ≤ m := by
  obtain ⟨_, a2, a3, _⟩ := food_change_loop_spec k hunger HS_FAINTING (by decide)
  by_contra hc
  have hlt : m < food_change_loop k hunger HS_FAINTING := not_le.mp hc
  have h1 := a3 m (Nat.zero_le m) hlt
  have h2 := h (by omega)
  omega

/-- A hunger above the first threshold is classified above `HS_FAINTING`. -/
theorem food_change_loop_pos (k : hunger_constants) (hunger : Int)
    (h : hunger_threshold k 0 < hunger) : HS_FAINTING < food_change_loop k hunger HS_FAINTING := by
  rw [food_change_loop_step k hunger HS_FAINTING ⟨by decide, h⟩]
  have h1 := (food_change_loop_spec k hunger (HS_FAINTING + 1) (by decide)).1
  omega

/-- What `lessen_hunger` does to a player that is not foodless, when the
assertion on `max_hunger_state` holds. -/
theorem lessen_hunger_result (k : hunger_constants) (you : player) (satiated_amount : Int)
    (suppress_msg : Bool) (max : Int) (hfood : you.foodless = false)
    (hrange : 0 ≤ (if max = -1 then (HS_ENGORGED : Int) else max) ∧
      (if max = -1 then (HS_ENGORGED : Int) else max) < (HS_ENGORGED : Int) + 1) :
    lessen_hunger k you satiated_amount suppress_msg max
      = some (food_change k
          { you with
            hunger := min (you.hunger + satiated_amount)
              (min k.HUNGER_MAXIMUM
                (hunger_threshold k (if max = -1 then (HS_ENGORGED : Int) else max).toNat)) }
          false).2 := by
  unfold lessen_hunger
  simp only [hfood, Bool.false_eq_true, if_false, hrange, and_self, if_true]
  generalize (if max = -1 then (HS_ENGORGED : Int) else max) = mhs
  by_cases hgt : you.hunger + satiated_amount
      > min k.HUNGER_MAXIMUM (hunger_threshold k mhs.toNat)
  · rw [if_pos hgt, min_eq_right (le_of_lt hgt)]
  · rw [if_neg hgt, min_eq_left (not_lt.mp hgt)]

/-- C21. The hunger state after `lessen_hunger` is documented not to be above
`max`, and the code breaks this.  With `HUNGER_FAINTING = 400` and
`HUNGER_STARVING = 900`, a ghoul (not foodless, not alive) at hunger 650 that is
given 100 with `max = HS_FAINTING` has its hunger cut to 400 by `lessen_hunger`
and raised to the floor 650 by `food_change`, which records `HS_STARVING`, a
state above `max`. -/
theorem lessen_hunger_exceeds_max :
    lessen_hunger sample_constants ⟨650, 1, false, true, false⟩ 100 true (HS_FAINTING : Int)
      = some ⟨650, 1, false, true, false⟩ ∧
    ¬ ((1 : Nat) ≤ HS_FAINTING) := by
  refine ⟨?_, by decide⟩
  rw [lessen_hunger_result sample_constants ⟨650, 1, false, true, false⟩ 100 true
    (HS_FAINTING : Int) rfl (by decide)]
  have hloop : food_change_loop sample_constants 650 HS_FAINTING = 1 := by
    rw [food_change_loop_step _ _ _ (by decide), food_change_loop_stop _ _ _ (by decide)]
  have hres := (food_change_result sample_constants
    { (⟨650, 1, false, true, false⟩ : player) with
      hunger := min ((650 : Int) + 100)
        (min sample_constants.HUNGER_MAXIMUM
          (hunger_threshold sample_constants
            (if (HS_FAINTING : Int) = -1 then (HS_ENGORGED : Int)
              else (HS_FAINTING : Int)).toNat)) } false).2
  have hclamp : min (you_max_hunger sample_constants (⟨650, 1, false, true, false⟩ : player))
      (max (you_min_hunger sample_constants (⟨650, 1, false, true, false⟩ : player))
        (min ((650 : Int) + 100)
          (min sample_constants.HUNGER_MAXIMUM
            (hunger_threshold sample_constants
              (if (HS_FAINTING : Int) = -1 then (HS_ENGORGED : Int)
                else (HS_FAINTING : Int)).toNat)))) = 650 := by
    decide
  rw [hres]
  simp only [you_max_hunger, you_min_hunger] at hclamp ⊢
  simp only [hclamp, hloop]

/-- Where the cap of `lessen_hunger` holds.  For a player that is not foodless
and every `satiated_amount`: for every `max` in `HS_FAINTING..HS_ENGORGED` such
that the floor `you_min_hunger()` is not above `hunger_threshold[max]` (nothing
is asked for `max = HS_ENGORGED`), `lessen_hunger` passes its assertion and
leaves `you.hunger_state` not above `max`; and with `max = -1`, when the floor
is not above `HUNGER_MAXIMUM`, it leaves `you.hunger` not above
`HUNGER_MAXIMUM`. -/
theorem lessen_hunger_cap (k : hunger_constants) (you : player) (satiated_amount : Int)
    (suppress_msg : Bool) (hfood : you.foodless = false) :
    (∀ m : Nat, m ≤ HS_ENGORGED →
      (m < HS_ENGORGED → you_min_hunger k you ≤ hunger_threshold k m) →
      ∃ you1 : player,
        lessen_hunger k you satiated_amount suppress_msg (m : Int) = some you1 ∧
        you1.hunger_state ≤ m) ∧
    (you_min_hunger k you ≤ k.HUNGER_MAXIMUM →
      ∃ you1 : player,
        lessen_hunger k you satiated_amount suppress_msg (-1) = some you1 ∧
        you1.hunger ≤ k.HUNGER_MAXIMUM) := by
  constructor
  · intro m hm hfloor
    have hne : ¬ ((m : Int) = -1) := by omega
    have hrange : 0 ≤ (if (m : Int) = -1 then (HS_ENGORGED : Int) else (m : Int)) ∧
        (if (m : Int) = -1 then (HS_ENGORGED : Int) else (m : Int)) < (HS_ENGORGED : Int) + 1 := by
      rw [if_neg hne]
      constructor
      · omega
      · have : (m : Int) ≤ (HS_ENGORGED : Int) := by exact_mod_cast hm
        omega
    refine ⟨_, lessen_hunger_result k you satiated_amount suppress_msg (m : Int) hfood hrange, ?_⟩
    rw [(food_change_result k _ false).2]
    simp only [if_neg hne, Int.toNat_ofNat]
    apply food_change_loop_le k _ m hm
    intro hlt
    have hf := hfloor hlt
    have hmin : ∀ x : Int, you_min_hunger k { you with hunger := x } = you_min_hunger k you :=
      fun _ => rfl
    simp only [hmin]
    omega
  · intro hfloor
    have hrange : 0 ≤ (if (-1 : Int) = -1 then (HS_ENGORGED : Int) else (-1 : Int)) ∧
        (if (-1 : Int) = -1 then (HS_ENGORGED : Int) else (-1 : Int))
          < (HS_ENGORGED : Int) + 1 := by
      decide
    refine ⟨_, lessen_hunger_result k you satiated_amount suppress_msg (-1) hfood hrange, ?_⟩
    rw [(food_change_result k _ false).2]
    have hmin : ∀ x : Int, you_min_hunger k { you with hunger := x } = you_min_hunger k you :=
      fun _ => rfl
    simp only [hmin]
    omega

/-- An instance of the cap: a living player at hunger 3000 that is given 10000
with `max = HS_SATIATED` ends in a state not above `HS_SATIATED`. -/
theorem lessen_hunger_cap_witness :
    ∃ you1 : player,
      lessen_hunger sample_constants ⟨3000, 4, false, false, true⟩ 10000 true
        ((HS_SATIATED : Nat) : Int) = some you1 ∧
      you1.hunger_state ≤ HS_SATIATED :=
  (lessen_hunger_cap sample_constants ⟨3000, 4, false, false, true⟩ 10000 true rfl).1
    HS_SATIATED (by decide) (fun _ => by decide)

/-- The floor of `food_change` beats the cap of `lessen_hunger`: whatever the
`HUNGER_*` values, for a player that is not foodless whose floor
`you_min_hunger()` lies above `hunger_threshold[HS_FAINTING]` and not above
`you_max_hunger()`, `lessen_hunger` with `max = HS_FAINTING` leaves a state
above `HS_FAINTING`. -/
theorem lessen_hunger_floor_above_max (k : hunger_constants) (you : player)
    (satiated_amount : Int) (suppress_msg : Bool) (hfood : you.foodless = false)
    (hfloor : hunger_threshold k HS_FAINTING < you_min_hunger k you)
    (hbounds : you_min_hunger k you ≤ you_max_hunger k you) :
    ∃ you1 : player,
      lessen_hunger k you satiated_amount suppress_msg (HS_FAINTING : Int) = some you1 ∧
      HS_FAINTING < you1.hunger_state := by
  refine ⟨_, lessen_hunger_result k you satiated_amount suppress_msg (HS_FAINTING : Int)
    hfood (by decide), ?_⟩
  rw [(food_change_result k _ false).2]
  have hmin : ∀ x : Int, you_min_hunger k { you with hunger := x } = you_min_hunger k you :=
    fun _ => rfl
  have hmax : ∀ x : Int, you_max_hunger k { you with hunger := x } = you_max_hunger k you :=
    fun _ => rfl
  simp only [hmin, hmax]
  have hfloor0 : hunger_threshold k 0 < you_min_hunger k you := hfloor
  apply food_change_loop_pos
  omega

/-! ## C22-C23: the tail of `del_food` and the termination of the drain loop -/

namespace foodpool

theorem del_permfood_nonpos (self : foodpool) (amount : Int) (h : amount ≤ 0) :
    self.del_permfood amount = (amount, self) := by
  rw [del_permfood_result]
  have hd : max 0 (min amount self.perm_food) = 0 := by omega
  rw [hd]
  simp

theorem del_permfood_of_empty (self : foodpool) (amount : Int) (h : self.perm_food = 0) :
    self.del_permfood amount = (amount, self) := by
  rw [del_permfood_result]
  have hd : max 0 (min amount self.perm_food) = 0 := by omega
  rw [hd]
  simp

theorem del_tempfood_fuel_nonpos (fuel : Nat) (amount : Int) (v : List tfood)
    (h : amount ≤ 0) : del_tempfood_fuel fuel amount v = some (amount, v) := by
  have hc : ¬ (0 < amount ∧ v ≠ []) := fun hc => absurd hc.1 (not_lt.mpr h)
  cases fuel with
  | zero => simp only [del_tempfood_fuel, if_neg hc]
  | succ n => simp only [del_tempfood_fuel, dif_neg hc]

/-- With as many iterations allowed as there are batches, the bounded loop
reaches the exit of the loop. -/
theorem del_tempfood_fuel_enough (fuel : Nat) (amount : Int) (v : List tfood)
    (hlen : v.length ≤ fuel) :
    del_tempfood_fuel fuel amount v = some (del_tempfood_loop amount v) := by
  induction fuel generalizing amount v with
  | zero =>
    have hv : v = [] := List.length_eq_zero.mp (Nat.le_zero.mp hlen)
    have hc : ¬ (0 < amount ∧ v ≠ []) := fun hc => hc.2 hv
    simp only [del_tempfood_fuel, if_neg hc, del_tempfood_loop_stop amount v hc]
  | succ n ih =>
    by_cases hc : 0 < amount ∧ v ≠ []
    · simp only [del_tempfood_fuel, dif_pos hc]
      rw [del_tempfood_loop_step amount v hc]
      rcases del_tempfood_body_cases amount v hc.2 with ⟨_, he⟩ | ⟨_, he⟩
      · rw [he]
        apply ih
        simp only [List.length_dropLast]
        omega
      · rw [he]
        rw [del_tempfood_fuel_nonpos n 0 _ (le_refl 0),
          del_tempfood_loop_nonpos 0 _ (le_refl 0)]
    · simp only [del_tempfood_fuel, dif_neg hc, del_tempfood_loop_stop amount v hc]

end foodpool

/-- C22. Redundant tail of `del_food`: on a pool with `perm_food >= 0` and only
positive batch amounts, whenever `del_food` reaches its final two calls, the
call on the preferred pool is a no-op.  Under `TEMP_FOOD_PREF` (positive amount,
positive leftover of the first `del_tempfood`) the final `del_tempfood` returns
its argument and changes nothing; under `PERM_FOOD_PREF` (positive leftover of
the first `del_permfood`) the final `del_permfood` returns its argument and
changes nothing. -/
theorem foodpool.redundant_tail (self : foodpool) (amount : Int)
    (hperm : 0 ≤ self.perm_food) (hpos : foodpool.all_positive self.temp_food) :
    (0 < amount → 0 < (self.del_tempfood amount).1 →
      ((self.del_tempfood amount).2.del_permfood (self.del_tempfood amount).1).2.del_tempfood
          ((self.del_tempfood amount).2.del_permfood (self.del_tempfood amount).1).1
        = (((self.del_tempfood amount).2.del_permfood (self.del_tempfood amount).1).1,
            ((self.del_tempfood amount).2.del_permfood (self.del_tempfood amount).1).2) ∧
      self.del_food amount .TEMP_FOOD_PREF
        = (self.del_tempfood amount).2.del_permfood (self.del_tempfood amount).1) ∧
    (0 < (self.del_permfood amount).1 →
      (self.del_permfood amount).2.del_permfood (self.del_permfood amount).1
        = ((self.del_permfood amount).1, (self.del_permfood amount).2) ∧
      self.del_food amount .PERM_FOOD_PREF
        = (self.del_permfood amount).2.del_tempfood (self.del_permfood amount).1) := by
  constructor
  · intro ha hleft
    obtain ⟨_, _, _, h4⟩ := foodpool.del_tempfood_result self amount (le_of_lt ha)
      (foodpool.all_positive_nonneg hpos)
    have hnil := h4 hleft
    have hnoop := foodpool.del_tempfood_nil
      ((self.del_tempfood amount).2.del_permfood (self.del_tempfood amount).1).2
      ((self.del_tempfood amount).2.del_permfood (self.del_tempfood amount).1).1
      (by rw [foodpool.del_permfood_result]; exact hnil)
    refine ⟨hnoop, ?_⟩
    rw [foodpool.del_food_temp_pref, if_neg (not_le.mpr hleft), hnoop]
  · intro hleft
    have hzero : (self.del_permfood amount).2.perm_food = 0 := by
      rw [foodpool.del_permfood_result] at hleft ⊢
      simp only at hleft ⊢
      omega
    have hnoop := foodpool.del_permfood_of_empty (self.del_permfood amount).2
      (self.del_permfood amount).1 hzero
    refine ⟨hnoop, ?_⟩
    rw [foodpool.del_food_perm_pref, if_neg (not_le.mpr hleft), hnoop]

/-- Witness of C22: 5 permanent, batches of 4 and 3; a permanent-preferred
withdrawal of 14 reaches the final two calls, and its second `del_permfood` is
a no-op. -/
theorem foodpool.redundant_tail_witness :
    0 < ((foodpool.mk [⟨4, 100⟩, ⟨3, 50⟩] 5).del_permfood 14).1 ∧
    ((foodpool.mk [⟨4, 100⟩, ⟨3, 50⟩] 5).del_permfood 14).2.del_permfood
        ((foodpool.mk [⟨4, 100⟩, ⟨3, 50⟩] 5).del_permfood 14).1
      = (((foodpool.mk [⟨4, 100⟩, ⟨3, 50⟩] 5).del_permfood 14).1,
          ((foodpool.mk [⟨4, 100⟩, ⟨3, 50⟩] 5).del_permfood 14).2) :=
  ⟨by decide,
    ((foodpool.redundant_tail ⟨[⟨4, 100⟩, ⟨3, 50⟩], 5⟩ 14 (by decide) (by decide)).2
      (by decide)).1⟩

/-- C23. Termination of the drain loop: for every amount and every batch
sequence, whatever the amounts of its batches, the loop of `del_tempfood` ends
within as many iterations as there are batches (the loop bounded to that many
iterations, or to more, returns the result of the loop), because an iteration
either removes the last batch or brings `amount` to 0. -/
theorem foodpool.drain_loop_terminates (amount : Int) (v : List tfood) :
    foodpool.del_tempfood_fuel v.length amount v
      = some (foodpool.del_tempfood_loop amount v) ∧
    (∀ fuel : Nat, v.length ≤ fuel →
      foodpool.del_tempfood_fuel fuel amount v = some (foodpool.del_tempfood_loop amount v)) ∧
    (∀ h : v ≠ [], 0 < amount →
      ((foodpool.del_tempfood_body amount v h).2 = v.dropLast ∧
          (foodpool.del_tempfood_body amount v h).2.length + 1 = v.length) ∨
        (foodpool.del_tempfood_body amount v h).1 = 0) := by
  refine ⟨foodpool.del_tempfood_fuel_enough v.length amount v (le_refl _),
    fun fuel hf => foodpool.del_tempfood_fuel_enough fuel amount v hf, ?_⟩
  intro h _
  have hlen : 0 < v.length := List.length_pos.mpr h
  rcases foodpool.del_tempfood_body_cases amount v h with ⟨_, he⟩ | ⟨_, he⟩
  · left
    rw [he]
    refine ⟨rfl, ?_⟩
    simp only [List.length_dropLast]
    omega
  · right
    rw [he]

/-- The bounded loop on a sequence that violates the invariants (amounts -5, 0
and 3): two iterations are not enough for the amount 10, three are, and the
leftover is 12. -/
theorem foodpool.drain_loop_example :
    foodpool.del_tempfood_fuel 2 10 [⟨-5, 1⟩, ⟨0, 2⟩, ⟨3, 4⟩] = none ∧
    foodpool.del_tempfood_fuel 3 10 [⟨-5, 1⟩, ⟨0, 2⟩, ⟨3, 4⟩] = some (12, []) := by
  decide

/-! ## C24-C26: sums of withdrawals, non-positive requests, bounds of the leftover -/

namespace foodpool

/-- Draining `a` and then `b` leaves the batches that draining `a + b` leaves,
and the two leftovers add up to its leftover. -/
theorem del_tempfood_loop_add (a : Int) (v : List tfood) :
    ∀ b : Int, 0 ≤ a → 0 ≤ b →
      (del_tempfood_loop b (del_tempfood_loop a v).2).2 = (del_tempfood_loop (a + b) v).2 ∧
      (del_tempfood_loop a v).1 + (del_tempfood_loop b (del_tempfood_loop a v).2).1
        = (del_tempfood_loop (a + b) v).1 := by
  induction a, v using del_tempfood_loop.induct with
  | case1 a v h ih =>
    intro b ha hb
    have hab : 0 < a + b ∧ v ≠ [] := ⟨by omega, h.2⟩
    rcases del_tempfood_body_cases a v h.2 with ⟨hle, he⟩ | ⟨hlt, he⟩
    · rw [del_tempfood_loop_step a v h, del_tempfood_loop_step (a + b) v hab]
      rcases del_tempfood_body_cases (a + b) v h.2 with ⟨_, he2⟩ | ⟨hlt2, _⟩
      · rw [he] at ih ⊢
        rw [he2]
        have hsum : a + b - (v.getLast h.2).amount = a - (v.getLast h.2).amount + b := by omega
        rw [hsum]
        exact ih b (by show 0 ≤ a - (v.getLast h.2).amount; omega) hb
      · omega
    · have hfirst : del_tempfood_loop a v
          = (0, v.dropLast ++ [{ v.getLast h.2 with amount := (v.getLast h.2).amount - a }]) := by
        rw [del_tempfood_loop_step a v h, he, del_tempfood_loop_nonpos 0 _ (le_refl 0)]
      have hne : v.dropLast ++ [({ v.getLast h.2 with
          amount := (v.getLast h.2).amount - a } : tfood)] ≠ [] := by simp
      have hlast : (v.dropLast ++ [({ v.getLast h.2 with
          amount := (v.getLast h.2).amount - a } : tfood)]).getLast hne
          = { v.getLast h.2 with amount := (v.getLast h.2).amount - a } := by simp
      rcases eq_or_lt_of_le hb with hb0 | hbpos
      · subst hb0
        rw [add_zero, hfirst]
        simp only [del_tempfood_loop_nonpos 0 _ (le_refl 0)]
        simp
      · rw [hfirst]
        simp only
        rw [del_tempfood_loop_step b _ ⟨hbpos, hne⟩, del_tempfood_loop_step (a + b) v hab]
        rcases del_tempfood_body_cases b _ hne with ⟨hle1, he1⟩ | ⟨hlt1, he1⟩
        · rw [hlast] at hle1 he1
          have hle1b : (v.getLast h.2).amount - a ≤ b := hle1
          rcases del_tempfood_body_cases (a + b) v h.2 with ⟨_, he2⟩ | ⟨hlt2, _⟩
          · rw [he1, he2, List.dropLast_concat]
            have hsum : b - ({ v.getLast h.2 with
                amount := (v.getLast h.2).amount - a } : tfood).amount
                = a + b - (v.getLast h.2).amount := by
              show b - ((v.getLast h.2).amount - a) = _
              omega
            rw [hsum]
            simp
          · omega
        · rw [hlast] at hlt1 he1
          have hlt1b : b < (v.getLast h.2).amount - a := hlt1
          rcases del_tempfood_body_cases (a + b) v h.2 with ⟨hle2, _⟩ | ⟨_, he2⟩
          · omega
          · rw [he1, he2, List.dropLast_concat]
            simp only [del_tempfood_loop_nonpos 0 _ (le_refl 0)]
            have hrec : ({ ({ v.getLast h.2 with
                amount := (v.getLast h.2).amount - a } : tfood) with
                amount := ({ v.getLast h.2 with
                  amount := (v.getLast h.2).amount - a } : tfood).amount - b } : tfood)
                = { v.getLast h.2 with amount := (v.getLast h.2).amount - (a + b) } := by
              show (⟨(v.getLast h.2).amount - a - b, (v.getLast h.2).expires⟩ : tfood)
                = ⟨(v.getLast h.2).amount - (a + b), (v.getLast h.2).expires⟩
              rw [sub_sub]
            rw [hrec]
            simp
  | case2 a v h =>
    intro b ha hb
    rw [del_tempfood_loop_stop a v h]
    by_cases hv : v = []
    · subst hv
      simp [del_tempfood_loop_nil]
    · have ha0 : a = 0 := by
        by_contra hne
        exact h ⟨by omega, hv⟩
      subst ha0
      simp

end foodpool

namespace foodpool

/-- The temporary-preferred withdrawal in closed form: the drain of the batches,
then the permanent pool for what the drain left unmet. -/
theorem del_food_temp_pref_form (self : foodpool) (a : Int) (ha : 0 ≤ a)
    (hp : all_nonneg self.temp_food) :
    self.del_food a .TEMP_FOOD_PREF
      = ((del_tempfood_loop a self.temp_food).1
            - max 0 (min (del_tempfood_loop a self.temp_food).1 self.perm_food),
          foodpool.mk (del_tempfood_loop a self.temp_food).2
            (self.perm_food
              - max 0 (min (del_tempfood_loop a self.temp_food).1 self.perm_food))) := by
  have hn := (del_tempfood_loop_nonneg a self.temp_food ha hp).1
  have h3 := (del_tempfood_loop_result a self.temp_food ha hp).2.2
  rw [del_food_temp_pref]
  split
  · rename_i hle
    have hle2 : (del_tempfood_loop a self.temp_food).1 ≤ 0 := hle
    have h0 : (del_tempfood_loop a self.temp_food).1 = 0 := le_antisymm hle2 hn
    have hd : max 0 (min (del_tempfood_loop a self.temp_food).1 self.perm_food) = 0 := by omega
    rw [hd]
    simp [del_tempfood]
  · rename_i hgt
    have hgt2 : ¬ (del_tempfood_loop a self.temp_food).1 ≤ 0 := hgt
    have hnil := h3 (not_le.mp hgt2)
    rw [del_tempfood_nil _ _ (by rw [del_permfood_result]; exact hnil)]
    rfl

/-- The permanent-preferred withdrawal in closed form: the permanent pool, then
the drain of the batches for what it left unmet. -/
theorem del_food_perm_pref_form (self : foodpool) (a : Int) (ha : 0 ≤ a)
    (hperm : 0 ≤ self.perm_food) :
    self.del_food a .PERM_FOOD_PREF
      = ((del_tempfood_loop (a - min a self.perm_food) self.temp_food).1,
          foodpool.mk (del_tempfood_loop (a - min a self.perm_food) self.temp_food).2
            (self.perm_food - min a self.perm_food)) := by
  have hd : max 0 (min a self.perm_food) = min a self.perm_food := by omega
  have hfirst : self.del_permfood a
      = (a - min a self.perm_food,
          foodpool.mk self.temp_food (self.perm_food - min a self.perm_food)) := by
    rw [del_permfood_result, hd]
  rw [del_food_perm_pref, hfirst]
  simp only
  split
  · rename_i hle
    have h0 : a - min a self.perm_food = 0 := by omega
    rw [h0, del_tempfood_loop_nonpos 0 _ (le_refl 0)]
  · rename_i hgt
    have hz : (foodpool.mk self.temp_food (self.perm_food - min a self.perm_food)).perm_food
        = 0 := by
      show self.perm_food - min a self.perm_food = 0
      omega
    rw [del_permfood_of_empty _ _ hz]
    rfl

end foodpool

/-- C24. Withdrawals compose additively: on a pool with `perm_food >= 0` and
only positive batch amounts, for every policy and all `a, b >= 0`,
`del_food(a, policy)` followed by `del_food(b, policy)` leaves the pool that a
single `del_food(a + b, policy)` leaves, and the two leftovers add up to the
leftover of the single call. -/
theorem foodpool.withdrawals_add (self : foodpool) (a b : Int) (pool : foodpool_select)
    (hperm : 0 ≤ self.perm_food) (hpos : foodpool.all_positive self.temp_food)
    (ha : 0 ≤ a) (hb : 0 ≤ b) :
    ((self.del_food a pool).2.del_food b pool).2 = (self.del_food (a + b) pool).2 ∧
    (self.del_food a pool).1 + ((self.del_food a pool).2.del_food b pool).1
      = (self.del_food (a + b) pool).1 := by
  have hnn := foodpool.all_positive_nonneg hpos
  cases pool
  · -- TEMP_FOOD_PREF
    have h1 := foodpool.del_tempfood_loop_nonneg a self.temp_food ha hnn
    have hadd := foodpool.del_tempfood_loop_add a self.temp_food b ha hb
    have h2 := foodpool.del_tempfood_loop_nonneg b _ hb h1.2
    rw [foodpool.del_food_temp_pref_form self a ha hnn,
      foodpool.del_food_temp_pref_form self (a + b) (by omega) hnn]
    simp only
    rw [foodpool.del_food_temp_pref_form _ b hb h1.2]
    simp only
    rw [hadd.1]
    have hsum := hadd.2
    refine ⟨?_, by omega⟩
    congr 1
    omega
  · -- PERM_FOOD_PREF
    have hadd := foodpool.del_tempfood_loop_add (a - min a self.perm_food) self.temp_food
      (b - min b (self.perm_food - min a self.perm_food)) (by omega) (by omega)
    have hsplit : a - min a self.perm_food + (b - min b (self.perm_food - min a self.perm_food))
        = a + b - min (a + b) self.perm_food := by omega
    rw [hsplit] at hadd
    rw [foodpool.del_food_perm_pref_form self a ha hperm,
      foodpool.del_food_perm_pref_form self (a + b) (by omega) hperm]
    simp only
    rw [foodpool.del_food_perm_pref_form _ b hb
      (by show 0 ≤ self.perm_food - min a self.perm_food; omega)]
    simp only
    rw [hadd.1]
    refine ⟨?_, hadd.2⟩
    congr 1
    omega
  · -- TEMP_FOOD_ONLY
    have hadd := foodpool.del_tempfood_loop_add a self.temp_food b ha hb
    simp only [foodpool.del_food_temp_only, foodpool.del_tempfood]
    rw [hadd.1]
    exact ⟨rfl, hadd.2⟩
  · -- PERM_FOOD_ONLY
    simp only [foodpool.del_food_perm_only, foodpool.del_permfood_result]
    refine ⟨?_, by omega⟩
    congr 1
    omega

/-- Witness of C24: 5 permanent, batches of 4 and 3; withdrawing 2 and then 9
under the temporary-preferred policy, or 11 at once. -/
theorem foodpool.withdrawals_add_witness :
    (((foodpool.mk [⟨4, 100⟩, ⟨3, 50⟩] 5).del_food 2 .TEMP_FOOD_PREF).2.del_food 9
        .TEMP_FOOD_PREF).2
      = ((foodpool.mk [⟨4, 100⟩, ⟨3, 50⟩] 5).del_food (2 + 9) .TEMP_FOOD_PREF).2 ∧
    ((foodpool.mk [⟨4, 100⟩, ⟨3, 50⟩] 5).del_food 2 .TEMP_FOOD_PREF).1
        + (((foodpool.mk [⟨4, 100⟩, ⟨3, 50⟩] 5).del_food 2 .TEMP_FOOD_PREF).2.del_food 9
          .TEMP_FOOD_PREF).1
      = ((foodpool.mk [⟨4, 100⟩, ⟨3, 50⟩] 5).del_food (2 + 9) .TEMP_FOOD_PREF).1 :=
  foodpool.withdrawals_add ⟨[⟨4, 100⟩, ⟨3, 50⟩], 5⟩ 2 9 .TEMP_FOOD_PREF
    (by decide) (by decide) (by decide) (by decide)

/-- C25. Non-positive withdrawal: for every pool, every policy and every
`amount <= 0`, `del_food(amount, policy)` leaves `perm_food` and the batch
sequence unchanged and returns `amount` itself; a negative request comes back
as a negative leftover. -/
theorem foodpool.nonpositive_withdrawal (self : foodpool) (amount : Int)
    (pool : foodpool_select) (h : amount ≤ 0) :
    self.del_food amount pool = (amount, self) ∧
    (self.del_food amount pool).2.perm_food = self.perm_food ∧
    (self.del_food amount pool).2.temp_food = self.temp_food ∧
    (self.del_food amount pool).1 = amount := by
  have hres : self.del_food amount pool = (amount, self) := by
    cases pool
    · rw [foodpool.del_food_temp_pref, foodpool.del_tempfood_nonpos self amount h, if_pos h]
    · rw [foodpool.del_food_perm_pref, foodpool.del_permfood_nonpos self amount h, if_pos h]
    · rw [foodpool.del_food_temp_only, foodpool.del_tempfood_nonpos self amount h]
    · rw [foodpool.del_food_perm_only, foodpool.del_permfood_nonpos self amount h]
  rw [hres]
  exact ⟨rfl, rfl, rfl, rfl⟩

/-- Witness of C25: asking -4 of a pool with 5 permanent and batches of 4 and 3
returns -4 and the pool as it was. -/
theorem foodpool.nonpositive_withdrawal_witness :
    (foodpool.mk [⟨4, 100⟩, ⟨3, 50⟩] 5).del_food (-4) .PERM_FOOD_PREF
      = (-4, ⟨[⟨4, 100⟩, ⟨3, 50⟩], 5⟩) :=
  (foodpool.nonpositive_withdrawal ⟨[⟨4, 100⟩, ⟨3, 50⟩], 5⟩ (-4) .PERM_FOOD_PREF
    (by decide)).1

/-- C26. Bounds of the leftover: there is a pool with a batch of negative amount
(one batch of -5) and an amount `a > 0` (3) for which
`del_food(a, TEMP_FOOD_ONLY)` returns a leftover above `a` (8); whereas on
every pool with `perm_food >= 0` and no negative batch amount, for every
`a >= 0` and every policy, the leftover is between 0 and `a`. -/
theorem foodpool.leftover_bounds (self : foodpool) (a : Int) (pool : foodpool_select)
    (hperm : 0 ≤ self.perm_food) (hnn : foodpool.all_nonneg self.temp_food) (ha : 0 ≤ a) :
    (∃ (bad : foodpool) (b : Int),
      (∃ t ∈ bad.temp_food, t.amount < 0) ∧ 0 < b ∧
        b < (bad.del_food b .TEMP_FOOD_ONLY).1) ∧
    0 ≤ (self.del_food a pool).1 ∧ (self.del_food a pool).1 ≤ a := by
  constructor
  · refine ⟨⟨[⟨-5, 50⟩], 0⟩, 3, ⟨⟨-5, 50⟩, by decide, by decide⟩, by decide, ?_⟩
    have b1 : foodpool.del_tempfood_body 3 [⟨-5, 50⟩] (by decide) = (8, []) := by decide
    have l1 : foodpool.del_tempfood_loop 3 [⟨-5, 50⟩] = (8, []) := by
      rw [foodpool.del_tempfood_loop_step _ _ ⟨by decide, by decide⟩, b1,
        foodpool.del_tempfood_loop_nil]
    rw [foodpool.del_food_temp_only]
    simp only [foodpool.del_tempfood, l1]
    decide
  · have h := (foodpool.del_food_account self a pool ha hperm hnn).1
    have hq : 0 ≤ self.temp_food_qty := by
      rw [foodpool.temp_food_qty_eq]; exact foodpool.batch_sum_nonneg hnn
    have hr : 0 ≤ self.reachable_qty pool := by
      cases pool <;>
        simp only [foodpool.reachable_qty, foodpool.total_food_qty, foodpool.perm_food_qty] <;>
        omega
    rw [h]
    constructor <;> omega

/-- Witness of C26: 5 permanent, batches of 0, 4 and 3; asking 14 under the
temporary-preferred policy leaves a leftover between 0 and 14. -/
theorem foodpool.leftover_bounds_witness :
    0 ≤ ((foodpool.mk [⟨0, 300⟩, ⟨4, 100⟩, ⟨3, 50⟩] 5).del_food 14 .TEMP_FOOD_PREF).1 ∧
    ((foodpool.mk [⟨0, 300⟩, ⟨4, 100⟩, ⟨3, 50⟩] 5).del_food 14 .TEMP_FOOD_PREF).1 ≤ 14 :=
  (foodpool.leftover_bounds ⟨[⟨0, 300⟩, ⟨4, 100⟩, ⟨3, 50⟩], 5⟩ 14 .TEMP_FOOD_PREF
    (by decide) (by decide) (by decide)).2
